import Mathlib

/-!
Verification of the real-time voice streaming pipeline of the call-connect-ai
backend, as described in its design specification.

The development shallowly embeds the two core source files:

* `backend/utils/audio.py` — the pure audio codec (mu-law decode table,
  mu-law encoder, linear-interpolation resampler, WAV container writer);
* `backend/routers/twilio.py` — the media-stream WebSocket session: the
  per-call context, the event handler loop, and the two asynchronous
  pipeline helpers `_process_audio_and_respond` and `_generate_and_send`.

Modelling conventions:

* Byte strings are `List Nat` (each element a byte value `< 256`).
* Python machine integers are `Nat`/`Int`; 16-bit PCM samples are `Int`.
* Python `float` arithmetic in `resample` is modelled as exact arithmetic
  (integer position/remainder computations); a separate model
  `resampleFloatLen` reproduces the source's IEEE-754 double computation of
  the output length, which is needed to settle the length claim exactly.
* Fallible code (`struct.pack` range errors, `array.frombytes` on an
  odd-length buffer, division by a zero rate) returns `Option`.
* The external collaborators (speech-to-text, text generation,
  text-to-speech, transcript broadcast) are opaque per the specification;
  each scheduled task carries an oracle recording the values those calls
  return (`none` modelling a raised exception).
* `asyncio`'s cooperative single-threaded scheduling is modelled by a
  small-step system: each task is a state machine whose steps are the
  atomic segments between `await` points, and a run is driven by an
  arbitrary list of scheduling choices.
-/

/-! ## Audio codec (`backend/utils/audio.py`) -/

/-- Decode table `_ULAW_TO_LINEAR`: mu-law byte to signed 16-bit linear
sample.  Source: `_mu = ~i & 0xFF` (written `i ^^^ 0xFF`, equal for
`i < 256`), extract sign/exponent/mantissa, rebuild the biased magnitude,
apply the sign. -/
def ULAW_TO_LINEAR (i : Nat) : Int :=
  let mu := i ^^^ 0xFF
  let sign := mu &&& 0x80
  let exp := (mu >>> 4) &&& 0x07
  let man := mu &&& 0x0F
  let mag : Nat := (((man <<< 3) + 0x84) <<< exp) - 0x84
  if sign ≠ 0 then -(mag : Int) else (mag : Int)

/-- The `while exponent > 0 and (sample & exp_mask) == 0` loop of
`_linear_to_mulaw`, recursing on the exponent counter. -/
def mulawExponent : Nat → Nat → Nat → Nat
  | 0, _, _ => 0
  | e + 1, mask, s => if s &&& mask = 0 then mulawExponent e (mask >>> 1) s else e + 1

/-- `_linear_to_mulaw`: signed linear sample to mu-law byte.  The source
computes the sign bit as `(sample >> 8) & 0x80`, which for 16-bit inputs
equals `0x80` exactly when the sample is negative; the final complement
`~x & 0xFF` is written `x ^^^ 0xFF`. -/
def linear_to_mulaw (sample : Int) : Nat :=
  let sign : Nat := if sample < 0 then 0x80 else 0
  let mag : Int := if sample < 0 then -sample else sample
  let mag : Int := if mag > 32635 then 32635 else mag
  let s : Nat := (mag + 0x84).toNat
  let exponent := mulawExponent 7 0x4000 s
  let mantissa := (s >>> (exponent + 3)) &&& 0x0F
  (sign ||| (exponent <<< 4) ||| mantissa) ^^^ 0xFF

/-- One little-endian signed 16-bit sample from two bytes
(`array("h").frombytes` element). -/
def i16FromBytes (lo hi : Nat) : Int :=
  let u := lo % 256 + 256 * (hi % 256)
  if u < 32768 then (u : Int) else (u : Int) - 65536

/-- `array("h").frombytes`: bytes to samples; `none` on an odd-length
buffer (Python raises `ValueError`). -/
def bytesToSamples : List Nat → Option (List Int)
  | [] => some []
  | [_] => none
  | lo :: hi :: rest => (bytesToSamples rest).map (i16FromBytes lo hi :: ·)

/-- One sample to two little-endian bytes (`array("h").tobytes` element,
two's complement). -/
def i16ToBytes (s : Int) : List Nat :=
  let u := (s % 65536).toNat
  [u % 256, u / 256]

/-- `array("h").tobytes`: samples to bytes. -/
def samplesToBytes (samples : List Int) : List Nat :=
  (samples.map i16ToBytes).flatten

/-- `mulaw_to_pcm`: mu-law bytes to signed-16-bit-LE PCM bytes. -/
def mulaw_to_pcm (mulaw_data : List Nat) : List Nat :=
  samplesToBytes (mulaw_data.map ULAW_TO_LINEAR)

/-- `pcm_to_mulaw`: signed-16-bit-LE PCM bytes to mu-law bytes; `none` on
an odd-length buffer. -/
def pcm_to_mulaw (pcm_data : List Nat) : Option (List Nat) :=
  (bytesToSamples pcm_data).map (·.map linear_to_mulaw)

/-- Python `int()` truncation (toward zero) of the exact quotient `x / d`. -/
def truncDiv (x : Int) (d : Nat) : Int :=
  if 0 ≤ x then ((x.toNat / d : Nat) : Int) else -(((-x).toNat / d : Nat) : Int)

/-- Body of `resample` on samples, in exact arithmetic.  For output index
`i` the fractional source position `i * from_rate / to_rate` is carried as
quotient `lo = (i * from_rate) / to_rate` and remainder
`r = (i * from_rate) % to_rate` (so `frac = r / to_rate`); the interpolated
value `src[lo] * (1 - frac) + src[hi] * frac` is
`(a * (to_rate - r) + b * r) / to_rate`, truncated by `int()`. -/
def resampleSamples (src : List Int) (from_rate to_rate : Nat) : List Int :=
  let n := src.length
  let out_len := n * to_rate / from_rate
  (List.range out_len).map (fun i =>
    let pos := i * from_rate
    let lo := pos / to_rate
    let hi := min (lo + 1) (n - 1)
    let r := pos % to_rate
    let a := src.getD lo 0
    let b := src.getD hi 0
    truncDiv (a * ((to_rate : Int) - (r : Int)) + b * (r : Int)) to_rate)

/-- `resample`: identity when the rates match (before any parsing of the
buffer); otherwise parse samples (`none` on odd length, as
`array.frombytes` raises), interpolate, re-serialize.  A zero rate makes
the source raise `ZeroDivisionError`, modelled as `none`. -/
def resample (pcm_bytes : List Nat) (from_rate to_rate : Nat) : Option (List Nat) :=
  if from_rate = to_rate then some pcm_bytes
  else if from_rate = 0 ∨ to_rate = 0 then none
  else (bytesToSamples pcm_bytes).map
    (fun src => samplesToBytes (resampleSamples src from_rate to_rate))

/-- `struct.pack` of an `I` (unsigned 32-bit little-endian) field; `none`
when out of range (`struct.error`). -/
def packU32 (x : Nat) : Option (List Nat) :=
  if x < 4294967296 then some [x % 256, x / 256 % 256, x / 65536 % 256, x / 16777216 % 256]
  else none

/-- `struct.pack` of an `H` (unsigned 16-bit little-endian) field; `none`
when out of range. -/
def packU16 (x : Nat) : Option (List Nat) :=
  if x < 65536 then some [x % 256, x / 256] else none

/-- `create_wav`: wrap PCM bytes in the 44-byte RIFF/WAVE header, fields
in `struct.pack("<4sI4s4sIHHIIHH4sI", ...)` order.  The four tag fields
are the ASCII bytes of "RIFF", "WAVE", "fmt ", "data". -/
def create_wav (pcm_bytes : List Nat) (sample_rate : Nat)
    (num_channels : Nat := 1) (bits : Nat := 16) : Option (List Nat) :=
  let byte_rate := sample_rate * num_channels * (bits / 8)
  let block_align := num_channels * (bits / 8)
  let data_size := pcm_bytes.length
  match packU32 (36 + data_size), packU32 16, packU16 1, packU16 num_channels,
      packU32 sample_rate, packU32 byte_rate, packU16 block_align, packU16 bits,
      packU32 data_size with
  | some riffSize, some chunkSize, some fmtTag, some channelsF, some rateF,
      some byteRateF, some blockAlignF, some bitsF, some dataSizeF =>
    some ([82, 73, 70, 70] ++ riffSize ++ [87, 65, 86, 69] ++ [102, 109, 116, 32] ++
      chunkSize ++ fmtTag ++ channelsF ++ rateF ++ byteRateF ++ blockAlignF ++ bitsF ++
      [100, 97, 116, 97] ++ dataSizeF ++ pcm_bytes)
  | _, _, _, _, _, _, _, _, _ => none

/-- Read back a little-endian 16-bit field at `off` from a byte list. -/
def readU16 (l : List Nat) (off : Nat) : Nat :=
  l.getD off 0 + 256 * l.getD (off + 1) 0

/-- Read back a little-endian 32-bit field at `off` from a byte list. -/
def readU32 (l : List Nat) (off : Nat) : Nat :=
  l.getD off 0 + 256 * l.getD (off + 1) 0 + 65536 * l.getD (off + 2) 0 +
    16777216 * l.getD (off + 3) 0

/-- The mu-law companding law's largest quantization step: in the top
segment consecutive mantissa values are `8 <<< 7 = 1024` apart. -/
def muLawMaxQuantStep : Nat := 1024

/-! ## Claim C3 -/

set_option maxRecDepth 8000 in
/-- C3: for all 256 telephony byte values `b`, re-encoding the decoded
sample and decoding again yields a linear value within the law's maximum
quantization step of the original decode (in fact the difference is 0;
only the byte for negative zero re-encodes differently). -/
theorem mulaw_roundtrip_within_step :
    ∀ b < 256,
      (ULAW_TO_LINEAR (linear_to_mulaw (ULAW_TO_LINEAR b)) - ULAW_TO_LINEAR b).natAbs
        ≤ muLawMaxQuantStep := by
  decide

/-- Witness for C3 at the concrete byte 5. -/
theorem mulaw_roundtrip_within_step_witness :
    (5 : Nat) < 256 ∧
      (ULAW_TO_LINEAR (linear_to_mulaw (ULAW_TO_LINEAR 5)) - ULAW_TO_LINEAR 5).natAbs
        ≤ muLawMaxQuantStep :=
  ⟨by decide, mulaw_roundtrip_within_step 5 (by decide)⟩

/-! ## Claim C9 -/

/-- C9: `resample x r r` returns `x` unchanged for every buffer `x` and
rate `r`, with no precondition on length or content — the equal-rates
branch returns before the buffer is ever parsed. -/
theorem resample_same_rate_id (x : List Nat) (r : Nat) : resample x r r = some x := by
  simp [resample]

/-! ## Claim C8 -/

/-- C8 counterexample: the claim quantifies over every sample rate, but at
`rate = 2^31` the byte-rate field overflows `struct.pack`'s 32-bit range
and `create_wav` raises (`none`) instead of returning a 44-byte-headed
buffer. -/
theorem create_wav_rate_overflow : create_wav [] 2147483648 1 16 = none := by decide

/-- The four little-endian bytes of a (in-range) 32-bit value. -/
def u32le (x : Nat) : List Nat := [x % 256, x / 256 % 256, x / 65536 % 256, x / 16777216 % 256]

/-- The two little-endian bytes of a (in-range) 16-bit value. -/
def u16le (x : Nat) : List Nat := [x % 256, x / 256]

/-- `packU32` on an in-range value. -/
theorem packU32_pos (x : Nat) (h : x < 4294967296) : packU32 x = some (u32le x) := by
  simp [packU32, u32le, h]

/-- `packU16` on an in-range value. -/
theorem packU16_pos (x : Nat) (h : x < 65536) : packU16 x = some (u16le x) := by
  simp [packU16, u16le, h]

/-- Unfolding of `create_wav` when every header field is in range. -/
theorem create_wav_eq (pcm : List Nat) (rate : Nat)
    (hrate : rate * 2 < 4294967296) (hlen : 36 + pcm.length < 4294967296) :
    create_wav pcm rate = some
      ([82, 73, 70, 70] ++ u32le (36 + pcm.length) ++ [87, 65, 86, 69] ++
        [102, 109, 116, 32] ++ u32le 16 ++ u16le 1 ++ u16le 1 ++ u32le rate ++
        u32le (rate * 1 * (16 / 8)) ++ u16le (1 * (16 / 8)) ++ u16le 16 ++
        [100, 97, 116, 97] ++ u32le pcm.length ++ pcm) := by
  simp only [create_wav]
  rw [packU32_pos _ (by omega), packU32_pos 16 (by omega), packU16_pos 1 (by omega),
    packU32_pos rate (by omega), packU32_pos (rate * 1 * (16 / 8)) (by omega),
    packU16_pos (1 * (16 / 8)) (by omega), packU16_pos 16 (by omega),
    packU32_pos pcm.length (by omega)]

/-- C8 (amended): for every PCM byte list and every sample rate whose
derived fields fit `struct.pack`'s ranges (`2 * rate < 2^32` and
`36 + len(pcm) < 2^32`), `create_wav pcm rate` with default arguments
returns `44 + len(pcm)` bytes whose little-endian header fields hold
format tag 1, channel count 1, the sample rate, byte rate `rate * 2`,
block alignment 2, bits-per-sample 16 and data length `len(pcm)`, followed
by `pcm` unchanged. -/
theorem create_wav_header_fields (pcm : List Nat) (rate : Nat)
    (hrate : rate * 2 < 4294967296) (hlen : 36 + pcm.length < 4294967296) :
    ∃ w, create_wav pcm rate = some w ∧
      w.length = 44 + pcm.length ∧
      readU16 w 20 = 1 ∧
      readU16 w 22 = 1 ∧
      readU32 w 24 = rate ∧
      readU32 w 28 = rate * 2 ∧
      readU16 w 32 = 2 ∧
      readU16 w 34 = 16 ∧
      readU32 w 40 = pcm.length ∧
      w.drop 44 = pcm := by
  refine ⟨_, create_wav_eq pcm rate hrate hlen, ?_, ?_, ?_, ?_, ?_, ?_, ?_, ?_, ?_⟩ <;>
    simp only [readU16, readU32, u32le, u16le, List.append_assoc, List.cons_append,
      List.nil_append, List.getD_cons_succ, List.getD_cons_zero, List.length_append,
      List.length_cons, List.length_nil, List.drop_succ_cons, List.drop_zero] <;>
    omega

/-- Witness for C8 (amended) at 2 bytes of PCM and rate 16000. -/
theorem create_wav_header_fields_witness :
    (16000 * 2 < 4294967296 ∧ 36 + ([7, 9] : List Nat).length < 4294967296) ∧
      ∃ w, create_wav [7, 9] 16000 = some w ∧
        w.length = 44 + ([7, 9] : List Nat).length ∧
        readU16 w 20 = 1 ∧
        readU16 w 22 = 1 ∧
        readU32 w 24 = 16000 ∧
        readU32 w 28 = 16000 * 2 ∧
        readU16 w 32 = 2 ∧
        readU16 w 34 = 16 ∧
        readU32 w 40 = ([7, 9] : List Nat).length ∧
        w.drop 44 = [7, 9] :=
  ⟨⟨by decide, by decide⟩, create_wav_header_fields [7, 9] 16000 (by decide) (by decide)⟩

/-! ## Claim C7 -/

/-- Python `int()` of a rational: truncation toward zero. -/
def ratTrunc (q : ℚ) : ℤ := if 0 ≤ q then ⌊q⌋ else ⌈q⌉

/-- The claim's per-index interpolation formula, written from the
specification's words: fractional source position `i * fromRate / toRate`,
linear interpolation between the floor source sample and the next one,
clamped at the end of the input. -/
def interpSpecQ (src : List Int) (from_rate to_rate i : Nat) : ℚ :=
  let p : ℚ := ((i * from_rate : Nat) : ℚ) / (to_rate : ℚ)
  let lo : ℤ := ⌊p⌋
  let hi : ℤ := min (lo + 1) ((src.length : ℤ) - 1)
  let frac : ℚ := p - (lo : ℚ)
  (src.getD lo.toNat 0 : ℚ) * (1 - frac) + (src.getD hi.toNat 0 : ℚ) * frac

/-- Truncation of an integer-over-nat quotient agrees with `truncDiv`. -/
theorem ratTrunc_intCast_div (x : ℤ) (d : Nat) (hd : 0 < d) :
    ratTrunc ((x : ℚ) / (d : ℚ)) = truncDiv x d := by
  have hd' : (0 : ℚ) < (d : ℚ) := by exact_mod_cast hd
  by_cases hx : 0 ≤ x
  · have hq : (0 : ℚ) ≤ (x : ℚ) / (d : ℚ) :=
      div_nonneg (by exact_mod_cast hx) hd'.le
    have hxx : (x : ℚ) = ((x.toNat : ℕ) : ℚ) := by
      exact_mod_cast (Int.toNat_of_nonneg hx).symm
    rw [ratTrunc, if_pos hq, truncDiv, if_pos hx, hxx]
    rw [Rat.floor_natCast_div_natCast]
    exact (Int.ofNat_div _ _).symm
  · push_neg at hx
    have hq : (x : ℚ) / (d : ℚ) < 0 :=
      div_neg_of_neg_of_pos (by exact_mod_cast hx) hd'
    rw [ratTrunc, if_neg (not_le.mpr hq), truncDiv, if_neg (not_le.mpr hx)]
    have hxx : (x : ℚ) = -((((-x).toNat : ℕ) : ℚ)) := by
      exact_mod_cast (show x = -(((-x).toNat : ℕ) : ℤ) by omega)
    rw [hxx, neg_div, Int.ceil_neg, Rat.floor_natCast_div_natCast]
    exact congrArg Neg.neg (Int.ofNat_div _ _).symm

/-- The claim's interpolation formula equals the source's integer
quotient-remainder computation of the same value. -/
theorem ratTrunc_interpSpec (src : List Int) (f t i : Nat) (ht : 0 < t)
    (hn : 1 ≤ src.length) :
    ratTrunc (interpSpecQ src f t i) =
      truncDiv (src.getD (i * f / t) 0 * ((t : ℤ) - ((i * f % t : ℕ) : ℤ)) +
        src.getD (min (i * f / t + 1) (src.length - 1)) 0 * ((i * f % t : ℕ) : ℤ)) t := by
  have htQ : ((t : ℚ)) ≠ 0 := by exact_mod_cast ht.ne'
  simp only [interpSpecQ]
  rw [show ⌊((i * f : ℕ) : ℚ) / (t : ℚ)⌋ = ((i * f / t : ℕ) : ℤ) by
    rw [Rat.floor_natCast_div_natCast]; exact (Int.ofNat_div _ _).symm]
  rw [Int.toNat_natCast]
  have hdm : t * (i * f / t) + i * f % t = i * f := Nat.div_add_mod (i * f) t
  have hfrac : ((i * f : ℕ) : ℚ) / (t : ℚ) - (((i * f / t : ℕ) : ℤ) : ℚ) =
      ((i * f % t : ℕ) : ℚ) / (t : ℚ) := by
    rw [show ((i * f : ℕ) : ℚ) = ((t * (i * f / t) + i * f % t : ℕ) : ℚ) by rw [hdm]]
    generalize i * f / t = q
    generalize i * f % t = r
    push_cast
    field_simp
  rw [hfrac]
  have hmin : (min ((((i * f / t : ℕ)) : ℤ) + 1) ((src.length : ℤ) - 1)).toNat =
      min (i * f / t + 1) (src.length - 1) := by
    generalize i * f / t = q
    rcases le_total (q + 1) (src.length - 1) with h | h
    · rw [min_eq_left (by omega), min_eq_left h]
      omega
    · rw [min_eq_right (by omega), min_eq_right h]
      omega
  rw [hmin]
  rw [show (src.getD (i * f / t) 0 : ℚ) * (1 - ((i * f % t : ℕ) : ℚ) / (t : ℚ)) +
      (src.getD (min (i * f / t + 1) (src.length - 1)) 0 : ℚ) *
        (((i * f % t : ℕ) : ℚ) / (t : ℚ)) =
      (((src.getD (i * f / t) 0 * ((t : ℤ) - ((i * f % t : ℕ) : ℤ)) +
        src.getD (min (i * f / t + 1) (src.length - 1)) 0 * ((i * f % t : ℕ) : ℤ)) : ℤ) : ℚ) /
        (t : ℚ) by
    generalize src.getD (i * f / t) 0 = a
    generalize src.getD (min (i * f / t + 1) (src.length - 1)) 0 = b
    generalize i * f % t = r
    push_cast
    field_simp
    try ring]
  rw [ratTrunc_intCast_div _ _ ht]

/-- C7 (amended): with positive distinct rates and an even-length buffer
(`bytesToSamples` succeeds), `resample` produces, in the exact-arithmetic
model of the source's float computation, `floor(n / (fromRate/toRate))
= n * toRate / fromRate` output samples, the `i`-th being the truncated
linear interpolation between input samples `floor(i * fromRate/toRate)`
and the next, clamped at the end.  (Under the actual IEEE-754 double
arithmetic of the source the count can fall one short of the claim's
floor formula for rate pairs with an inexactly representable ratio — see
the counterexample — though not for the program's own pairs 8000→16000
and 22050→8000 at any realistic length.) -/
theorem resample_length_interp (bytes : List Nat) (f t : Nat) (src : List Int)
    (hf : 0 < f) (ht : 0 < t) (hne : f ≠ t)
    (hsrc : bytesToSamples bytes = some src) :
    resample bytes f t = some (samplesToBytes (resampleSamples src f t)) ∧
    (resampleSamples src f t).length = src.length * t / f ∧
    ⌊(src.length : ℚ) / ((f : ℚ) / (t : ℚ))⌋ = ((src.length * t / f : Nat) : ℤ) ∧
    ∀ i, i < (resampleSamples src f t).length →
      (resampleSamples src f t).getD i 0 = ratTrunc (interpSpecQ src f t i) := by
  have hf0 : f ≠ 0 := hf.ne'
  have ht0 : t ≠ 0 := ht.ne'
  have htQ : ((t : ℚ)) ≠ 0 := by exact_mod_cast ht0
  have hfQ : ((f : ℚ)) ≠ 0 := by exact_mod_cast hf0
  refine ⟨?_, ?_, ?_, ?_⟩
  · simp [resample, hne, hf0, ht0, hsrc]
  · simp [resampleSamples]
  · rw [div_div_eq_mul_div]
    rw [show (src.length : ℚ) * (t : ℚ) = ((src.length * t : Nat) : ℚ) by push_cast; ring]
    rw [Rat.floor_natCast_div_natCast]
    exact (Int.ofNat_div _ _).symm
  · intro i hi
    have hlen : (resampleSamples src f t).length = src.length * t / f := by
      simp [resampleSamples]
    have hi' : i < src.length * t / f := hlen ▸ hi
    have hn : 1 ≤ src.length := by
      by_contra h
      push_neg at h
      have h0 : src.length = 0 := by omega
      rw [h0] at hi'
      simp at hi'
    have hval : (resampleSamples src f t).getD i 0 =
        (fun i =>
          let pos := i * f
          let lo := pos / t
          let hi := min (lo + 1) (src.length - 1)
          let r := pos % t
          let a := src.getD lo 0
          let b := src.getD hi 0
          truncDiv (a * ((t : Int) - (r : Int)) + b * (r : Int)) t) i := by
      rw [resampleSamples]
      rw [List.getD_eq_getElem?_getD, List.getElem?_map, List.getElem?_range hi']
      rfl
    rw [hval]
    exact (ratTrunc_interpSpec src f t i ht hn).symm

/-- Witness for C7 (amended) on a 2-sample buffer upsampled 8000→16000. -/
theorem resample_length_interp_witness :
    (0 < 8000 ∧ 0 < 16000 ∧ 8000 ≠ 16000 ∧
      bytesToSamples [0, 0, 232, 3] = some [0, 1000]) ∧
    (resample [0, 0, 232, 3] 8000 16000 =
        some (samplesToBytes (resampleSamples [0, 1000] 8000 16000)) ∧
      (resampleSamples [0, 1000] 8000 16000).length = ([0, 1000] : List Int).length * 16000 / 8000 ∧
      ⌊(([0, 1000] : List Int).length : ℚ) / ((8000 : ℚ) / (16000 : ℚ))⌋ =
        ((([0, 1000] : List Int).length * 16000 / 8000 : Nat) : ℤ) ∧
      ∀ i, i < (resampleSamples [0, 1000] 8000 16000).length →
        (resampleSamples [0, 1000] 8000 16000).getD i 0 =
          ratTrunc (interpSpecQ [0, 1000] 8000 16000 i)) :=
  ⟨⟨by decide, by decide, by decide, by decide⟩,
    resample_length_interp [0, 0, 232, 3] 8000 16000 [0, 1000]
      (by decide) (by decide) (by decide) (by decide)⟩

/-- Compare `p * 2 ^ s / q` against the threshold `c` (true when the
scaled value is at least `c`), in exact integer arithmetic. -/
def cmpGe (p q : Nat) (s : Int) (c : Nat) : Bool :=
  if 0 ≤ s then c * q ≤ p * 2 ^ s.toNat else c * q * 2 ^ (-s).toNat ≤ p

/-- Find the binary scaling `s` that brings `p / q * 2 ^ s` into the
53-bit significand range `[2^52, 2^53)`. -/
def findS (fuel : Nat) (p q : Nat) (s : Int) : Int :=
  match fuel with
  | 0 => s
  | fl + 1 =>
    if ¬ cmpGe p q s 4503599627370496 then findS fl p q (s + 1)
    else if cmpGe p q s 9007199254740992 then findS fl p q (s - 1)
    else s

/-- Round the positive rational `p / q` to the nearest IEEE-754 double
(round-half-to-even), returned as a pair `(m, s)` denoting `m / 2 ^ s`. -/
def roundPos (p q : Nat) : Nat × Int :=
  let s := findS 1200 p q 0
  let a := if 0 ≤ s then p * 2 ^ s.toNat else p
  let b := if 0 ≤ s then q else q * 2 ^ (-s).toNat
  let m0 := a / b
  let r := a % b
  let m := if 2 * r < b then m0
           else if b < 2 * r then m0 + 1
           else if m0 % 2 = 0 then m0 else m0 + 1
  (m, s)

/-- The source's output-length computation
`ratio = from_rate / to_rate; out_len = int(len(src) / ratio)` under
IEEE-754 double-precision arithmetic: both divisions round to nearest
double, then `int()` truncates. -/
def resampleFloatLen (n f t : Nat) : Nat :=
  let d1 := roundPos f t
  let p2 := if 0 ≤ d1.2 then n * 2 ^ d1.2.toNat else n
  let q2 := if 0 ≤ d1.2 then d1.1 else d1.1 * 2 ^ (-d1.2).toNat
  let d2 := roundPos p2 q2
  if 0 ≤ d2.2 then d2.1 / 2 ^ d2.2.toNat else d2.1 * 2 ^ (-d2.2).toNat

/-- C7 counterexample: the claim's length formula does not hold for every
rate pair under the source's floating-point arithmetic.  At
`from_rate = 3, to_rate = 17` and 21 input samples, the exact model (and
the claim's floor formula) gives 119 output samples, but the source's
double-precision `int(len(src) / (from_rate / to_rate))` divides by a
ratio rounded up and truncates `118.99999999999999` to 118. -/
theorem resample_float_length_cx :
    resampleFloatLen 21 3 17 = 118 ∧
    21 * 17 / 3 = 119 ∧
    (resampleSamples (List.replicate 21 0) 3 17).length = 119 := by
  refine ⟨by decide, by decide, ?_⟩
  simp [resampleSamples]

/-! ## Session model (`backend/routers/twilio.py`, `media_stream` and helpers)

The per-call mutable `context` dict, the inbound-event loop, and the two
asynchronous helpers are modelled as a small-step system.  Each task
(`_process_audio_and_respond`, or the initial `_generate_and_send`
scheduled by the `start` event) is a state machine whose transitions are
the atomic code segments between `await` points; `asyncio`'s cooperative
single-threaded scheduling is an arbitrary interleaving of such segments
with deliveries of inbound events.  External collaborator results are
oracles fixed per task (`none` models a raised exception); the
`call_later(1.0, ...)` delay for the initial turn is subsumed by
scheduling nondeterminism. -/

namespace MediaStream

/-- The per-call `context` dict created by `media_stream`. -/
structure Context where
  stream_sid : String := ""
  call_sid : String := ""
  provider_name : String := ""
  service : String := ""
  user_name : String := ""
  purpose : String := ""
  details : String := ""
  time_preference : String := ""
  conversation_history : List (String × String) := []
  audio_buffer : List Nat := []
  is_processing : Bool := false
deriving DecidableEq, Repr

/-- Results of the external collaborator calls made by one task.
`none` models the call raising an exception; `sendFail = some k` models
`ws.send_text` raising on the `k`-th send attempt (0-based, the mark send
counting after the chunk sends). -/
structure Oracle where
  stt : Option String := none
  gen : Option String := none
  tts : Option (List Nat) := none
  sendFail : Option Nat := none
deriving DecidableEq, Repr

/-- Which coroutine a task runs: `_process_audio_and_respond`, or the
initial-turn `_generate_and_send(is_initial=True)`. -/
inductive TaskKind where
  | process
  | initial
deriving DecidableEq, Repr

/-- Resumption point of a task: each constructor names the `await` the
task is suspended at (`p0` = not yet started; `sending` = suspended in the
`asyncio.sleep(0.01)` between chunk sends, carrying the chunks still to
send and the count of sends already attempted). -/
inductive Phase where
  | p0
  | awaitStt
  | awaitCastUser (t : String)
  | awaitGen
  | awaitCastAI (g : String)
  | awaitTts
  | sending (pending : List (List Nat)) (k : Nat)
  | done
deriving DecidableEq, Repr

/-- One scheduled coroutine.  `acquired` records whether this task ever
performed the `is_processing` false→true transition (instrumentation);
`sleeps` counts the inter-chunk `asyncio.sleep` suspensions. -/
structure Task where
  kind : TaskKind
  phase : Phase
  orc : Oracle
  acquired : Bool := false
  sleeps : Nat := 0
deriving DecidableEq, Repr

/-- An outbound WebSocket message (`ws.send_text`).  The sending task's
kind and index instrument the message for interleaving statements. -/
inductive OutMsg where
  | media (kind : TaskKind) (idx : Nat) (streamSid : String) (payload : List Nat)
  | markMsg (idx : Nat) (streamSid : String) (name : String)
deriving DecidableEq, Repr

/-- The mu-law pipeline applied to a TTS result before sending:
`resample(audio_pcm_22k, 22050, 8000)` then `pcm_to_mulaw`. -/
def ttsToMulaw (pcm : List Nat) : Option (List Nat) :=
  (resample pcm 22050 8000).bind pcm_to_mulaw

/-- Python `str.strip()`: drop leading and trailing whitespace (written
over the character list so that it evaluates by reduction). -/
def pyStrip (s : String) : String :=
  String.mk (((s.data.dropWhile Char.isWhitespace).reverse.dropWhile Char.isWhitespace).reverse)

/-- The chunking loop `for i in range(0, len(mulaw_data), 640)`. -/
def chunk640 : List Nat → List (List Nat)
  | [] => []
  | a :: l => ((a :: l).take 640) :: chunk640 ((a :: l).drop 640)
termination_by l => l.length
decreasing_by simp; omega

/-- Leaving `_process_audio_and_respond` through its `finally:` clause
clears `is_processing`; the initial `_generate_and_send` task has no such
clause. -/
def release (ctx : Context) (task : Task) : Context :=
  if task.kind = .process then { ctx with is_processing := false } else ctx

/-- One iteration of the chunk-send loop (or the final mark send when no
chunks remain).  A failing `ws.send_text` raises, which the enclosing
`except` swallows, ending the task. -/
def sendStep (ctx : Context) (out : List OutMsg) (idx : Nat) (task : Task)
    (pending : List (List Nat)) (k : Nat) : Context × List OutMsg × Task :=
  match pending with
  | [] =>
    if task.orc.sendFail = some k then (release ctx task, out, { task with phase := .done })
    else (release ctx task, out ++ [.markMsg idx ctx.stream_sid "audio_complete"],
      { task with phase := .done })
  | c :: rest =>
    if task.orc.sendFail = some k then (release ctx task, out, { task with phase := .done })
    else (ctx, out ++ [.media task.kind idx ctx.stream_sid c],
      { task with phase := .sending rest (k + 1), sleeps := task.sleeps + 1 })

/-- One atomic segment of a task: from its current resumption point up to
its next `await` (or its end).  Mirrors `_process_audio_and_respond` and
`_generate_and_send` line by line; the audio handed to `_transcribe` is
not tracked because the speech-to-text collaborator is opaque (its result
is the task's `stt` oracle). -/
def stepTask (ctx : Context) (out : List OutMsg) (idx : Nat) (task : Task) :
    Context × List OutMsg × Task :=
  match task.phase with
  | .p0 =>
    match task.kind with
    | .initial => (ctx, out, { task with phase := .awaitGen })
    | .process =>
      if ctx.is_processing || ctx.audio_buffer.isEmpty then
        (ctx, out, { task with phase := .done })
      else
        ({ ctx with is_processing := true, audio_buffer := [] }, out,
          { task with phase := .awaitStt, acquired := true })
  | .awaitStt =>
    match task.orc.stt with
    | none => (release ctx task, out, { task with phase := .done })
    | some t =>
      if t = "" ∨ (pyStrip t).length < 2 then
        (release ctx task, out, { task with phase := .done })
      else (ctx, out, { task with phase := .awaitCastUser t })
  | .awaitCastUser t =>
    ({ ctx with conversation_history := ctx.conversation_history ++ [("user", t)] }, out,
      { task with phase := .awaitGen })
  | .awaitGen =>
    match task.orc.gen with
    | none => (release ctx task, out, { task with phase := .done })
    | some g => (ctx, out, { task with phase := .awaitCastAI g })
  | .awaitCastAI g =>
    ({ ctx with conversation_history := ctx.conversation_history ++ [("assistant", g)] }, out,
      { task with phase := .awaitTts })
  | .awaitTts =>
    match task.orc.tts with
    | none => (release ctx task, out, { task with phase := .done })
    | some pcm =>
      match ttsToMulaw pcm with
      | none => (release ctx task, out, { task with phase := .done })
      | some ml => sendStep ctx out idx task (chunk640 ml) 0
  | .sending pending k => sendStep ctx out idx task pending k
  | .done => (ctx, out, task)

/-- Run `fuel` consecutive segments of one task (no other task
interleaved). -/
def execTask : Nat → Context → List OutMsg → Nat → Task → Context × List OutMsg × Task
  | 0, ctx, out, _, task => (ctx, out, task)
  | fuel + 1, ctx, out, idx, task =>
    let r := stepTask ctx out idx task
    execTask fuel r.1 r.2.1 idx r.2.2

/-- Custom parameters of the `start` event's payload; `none` models a
missing field (`cp.get(..., default)` substitutes the default). -/
structure CustomParams where
  providerName : Option String := none
  service : Option String := none
  userName : Option String := none
  purpose : Option String := none
  details : Option String := none
  timePreference : Option String := none
deriving DecidableEq, Repr

/-- The `start` sub-object of a `start` event (`msg.get("start", {})`). -/
structure StartInfo where
  callSid : Option String := none
  customParameters : Option CustomParams := none
deriving DecidableEq, Repr

/-- One inbound WebSocket text frame, after `json.loads`.  `media none`
models a `media` event whose `media.payload` is missing, wrongly typed or
undecodable (the subscripting/`b64decode` raises); `startBad` models a
`start` event whose `start` or `customParameters` value is present but
not an object, on which `start_info.get(...)`/`cp.get(...)` raises
`AttributeError`; `badText` models a frame that is not a JSON object
(`json.loads`/`.get` raises); `unknown` is any other event tag (the
handler has no `else` branch). -/
inductive InEvent where
  | connected
  | start (streamSid : Option String) (info : Option StartInfo)
  | startBad
  | media (payload : Option (List Nat))
  | stop
  | markEvt
  | unknown
  | badText
deriving DecidableEq, Repr

/-- The whole per-connection state: the context, the scheduled tasks, the
outbound log, the inbound frames not yet received, the oracles that future
spawned tasks will get (head first), and whether the `while True` receive
loop is still running. -/
structure Sys where
  ctx : Context
  tasks : List Task
  out : List OutMsg
  events : List InEvent
  supply : List Oracle
  loopAlive : Bool
deriving DecidableEq, Repr

/-- `asyncio.ensure_future` / `call_later`: append a new task in phase
`p0`, consuming one oracle from the supply. -/
def spawnTask (s : Sys) (kind : TaskKind) : Sys :=
  { s with
    tasks := s.tasks ++ [{ kind := kind, phase := .p0, orc := s.supply.headD {} }],
    supply := s.supply.tail }

/-- The body of the `while True` receive loop for one inbound frame,
mirroring the `if event == ...` chain: `connected`/`stop` log only,
`mark` is ignored, `start` populates the context with defaulted fields
and schedules the initial turn, `media` appends the decoded payload and
schedules a processing turn when the 16000-byte threshold is reached with
`is_processing` false.  A raising frame (`media` without payload, `start`
with a wrongly-typed `start`/`customParameters` object, unparsable text)
propagates to the outer `except`, ending the loop. -/
def handleEvent (s : Sys) (e : InEvent) : Sys :=
  match e with
  | .connected => s
  | .start ss info =>
    let si := info.getD {}
    let cp := si.customParameters.getD {}
    let ctx := { s.ctx with
      stream_sid := ss.getD "",
      call_sid := si.callSid.getD "",
      provider_name := cp.providerName.getD "the business",
      service := cp.service.getD "appointment",
      user_name := cp.userName.getD "a customer",
      purpose := cp.purpose.getD "new_appointment",
      details := cp.details.getD "",
      time_preference := cp.timePreference.getD "flexible" }
    spawnTask { s with ctx := ctx } .initial
  | .startBad => { s with loopAlive := false }
  | .media p =>
    match p with
    | none => { s with loopAlive := false }
    | some bs =>
      let ctx2 := { s.ctx with audio_buffer := s.ctx.audio_buffer ++ bs }
      if 16000 ≤ ctx2.audio_buffer.length ∧ ctx2.is_processing = false then
        spawnTask { s with ctx := ctx2 } .process
      else { s with ctx := ctx2 }
  | .stop => s
  | .markEvt => s
  | .unknown => s
  | .badText => { s with loopAlive := false }

/-- A scheduling choice: either the receive loop consumes the next
inbound frame, or task `i` runs its next atomic segment. -/
inductive Choice where
  | deliver
  | run (i : Nat)

/-- One step of the whole system under a scheduling choice.  Choices that
cannot fire (no frame pending, loop dead, no such task, task finished)
are no-ops. -/
def stepSys (s : Sys) : Choice → Sys
  | .deliver =>
    if s.loopAlive then
      match s.events with
      | [] => s
      | e :: rest => handleEvent { s with events := rest } e
    else s
  | .run i =>
    match s.tasks[i]? with
    | none => s
    | some t =>
      let r := stepTask s.ctx s.out i t
      { s with ctx := r.1, out := r.2.1, tasks := s.tasks.set i r.2.2 }

/-- Run the system under a list of scheduling choices. -/
def runSys : Sys → List Choice → Sys
  | s, [] => s
  | s, c :: cs => runSys (stepSys s c) cs

/-- Is a task finished? -/
def isDone : Phase → Bool
  | .done => true
  | _ => false

/-- Has a task not yet started? -/
def isP0 : Phase → Bool
  | .p0 => true
  | _ => false

/-- Is this the `_process_audio_and_respond` coroutine? -/
def isProcessKind : TaskKind → Bool
  | .process => true
  | .initial => false

/-- A `_process_audio_and_respond` execution is in flight from the moment
it passes the `is_processing` guard until it finishes. -/
def inFlight (t : Task) : Bool :=
  isProcessKind t.kind && !isP0 t.phase && !isDone t.phase

/-- Task indices of all outbound audio (`media`) messages, in send
order. -/
def mediaTags (out : List OutMsg) : List Nat :=
  out.filterMap fun m =>
    match m with
    | .media _ i _ _ => some i
    | _ => none

/-- Task indices of the outbound audio messages sent by
`_process_audio_and_respond` executions only. -/
def procTags (out : List OutMsg) : List Nat :=
  out.filterMap fun m =>
    match m with
    | .media k i _ _ => if isProcessKind k then some i else none
    | _ => none

/-- Collapse adjacent duplicates; a list of tags is free of interleaving
exactly when this collapse has no duplicates. -/
def dedupAdj : List Nat → List Nat
  | [] => []
  | [a] => [a]
  | a :: b :: l => if a = b then dedupAdj (b :: l) else a :: dedupAdj (b :: l)

/-! ### Task-level lemmas -/

/-- Running `m + n` segments is running `m` then `n`. -/
theorem execTask_add (m n : Nat) (ctx : Context) (out : List OutMsg) (idx : Nat)
    (task : Task) :
    execTask (m + n) ctx out idx task =
      execTask n (execTask m ctx out idx task).1 (execTask m ctx out idx task).2.1 idx
        (execTask m ctx out idx task).2.2 := by
  induction m generalizing ctx out task with
  | zero => simp [execTask]
  | succ m ih =>
    rw [show m + 1 + n = (m + n) + 1 by omega]
    simp only [execTask]
    rw [ih]

/-- The chunking loop splits a buffer into `ceil(n / 640)` chunks. -/
theorem chunk640_length (l : List Nat) : (chunk640 l).length = (l.length + 639) / 640 := by
  induction l using chunk640.induct with
  | case1 => simp [chunk640]
  | case2 a l ih =>
    rw [chunk640]
    simp only [List.length_cons, List.length_drop] at ih ⊢
    rw [ih]
    omega

/-- Every chunk holds at most 640 bytes. -/
theorem chunk640_le (l : List Nat) : ∀ c ∈ chunk640 l, c.length ≤ 640 := by
  induction l using chunk640.induct with
  | case1 => simp [chunk640]
  | case2 a l ih =>
    rw [chunk640]
    intro c hc
    rcases List.mem_cons.mp hc with h | h
    · subst h
      simp [List.length_take]
    · exact ih c h

/-- Concatenating the chunks recovers the buffer, in order. -/
theorem chunk640_flatten (l : List Nat) : (chunk640 l).flatten = l := by
  induction l using chunk640.induct with
  | case1 => simp [chunk640]
  | case2 a l ih =>
    rw [chunk640]
    simp only [List.flatten_cons, ih, List.take_append_drop]

/-- The chunk-send loop from phase `sending pending k`, with no send
failure: each pending chunk goes out as one `media` message with a sleep
after it, then the single `audio_complete` mark is sent and the task ends
(releasing `is_processing` for a process-kind task). -/
theorem exec_sending : ∀ (pending : List (List Nat)) (ctx : Context) (out : List OutMsg)
    (idx : Nat) (task : Task) (k : Nat),
    task.phase = .sending pending k → task.orc.sendFail = none →
    execTask (pending.length + 1) ctx out idx task =
      (release ctx task,
       out ++ pending.map (fun c => OutMsg.media task.kind idx ctx.stream_sid c) ++
         [OutMsg.markMsg idx ctx.stream_sid "audio_complete"],
       { task with phase := .done, sleeps := task.sleeps + pending.length }) := by
  intro pending
  induction pending with
  | nil =>
    intro ctx out idx task k hph hnf
    obtain ⟨kk, ph, orc, acq, sl⟩ := task
    simp only [Task.phase] at hph
    subst hph
    have hnf' : orc.sendFail = none := hnf
    simp [execTask, stepTask, sendStep, hnf']
  | cons c rest ih =>
    intro ctx out idx task k hph hnf
    obtain ⟨kk, ph, orc, acq, sl⟩ := task
    simp only [Task.phase] at hph
    subst hph
    have hnf' : orc.sendFail = none := hnf
    simp only [List.length_cons]
    rw [show rest.length + 1 + 1 = 1 + (rest.length + 1) by omega]
    rw [execTask_add]
    have hstep : execTask 1 ctx out idx ⟨kk, .sending (c :: rest) k, orc, acq, sl⟩ =
        (ctx, out ++ [OutMsg.media kk idx ctx.stream_sid c],
          ⟨kk, .sending rest (k + 1), orc, acq, sl + 1⟩) := by
      simp [execTask, stepTask, sendStep, hnf']
    rw [hstep]
    rw [ih ctx (out ++ [OutMsg.media kk idx ctx.stream_sid c]) idx
      ⟨kk, .sending rest (k + 1), orc, acq, sl + 1⟩ (k + 1) rfl hnf]
    simp [release]
    omega

/-- From the resumption after `_tts`, with a decodable result and no send
failure: the chunks stream out followed by exactly one mark. -/
theorem exec_tts (ctx : Context) (out : List OutMsg) (idx : Nat) (task : Task)
    (pcm ml : List Nat) (hph : task.phase = .awaitTts) (htts : task.orc.tts = some pcm)
    (hnf : task.orc.sendFail = none) (hml : ttsToMulaw pcm = some ml) :
    execTask ((chunk640 ml).length + 1) ctx out idx task =
      (release ctx task,
       out ++ (chunk640 ml).map (fun c => OutMsg.media task.kind idx ctx.stream_sid c) ++
         [OutMsg.markMsg idx ctx.stream_sid "audio_complete"],
       { task with phase := .done, sleeps := task.sleeps + (chunk640 ml).length }) := by
  obtain ⟨kk, ph, orc, acq, sl⟩ := task
  simp only [Task.phase] at hph
  subst hph
  have hnf' : orc.sendFail = none := hnf
  have htts' : orc.tts = some pcm := htts
  rcases hch : chunk640 ml with _ | ⟨c, rest⟩
  · simp [execTask, stepTask, htts', hml, sendStep, hnf', hch]
  · simp only [List.length_cons]
    rw [show rest.length + 1 + 1 = 1 + (rest.length + 1) by omega]
    rw [execTask_add]
    have hstep : execTask 1 ctx out idx ⟨kk, .awaitTts, orc, acq, sl⟩ =
        (ctx, out ++ [OutMsg.media kk idx ctx.stream_sid c],
          ⟨kk, .sending rest 1, orc, acq, sl + 1⟩) := by
      simp [execTask, stepTask, htts', hml, sendStep, hnf', hch]
    rw [hstep]
    rw [exec_sending rest ctx (out ++ [OutMsg.media kk idx ctx.stream_sid c]) idx
      ⟨kk, .sending rest 1, orc, acq, sl + 1⟩ 1 rfl hnf]
    simp [release]
    omega

/-! ## Claim C5 -/

/-- C5: a synthesized reply whose telephony encoding is `ml` goes out as
`ceil(len(ml)/640)` discrete `media` messages, each chunk at most 640
bytes, in order and concatenating back to `ml`, with one paced sleep per
chunk, followed by exactly one `mark` event named `audio_complete`. -/
theorem paced_chunked_send (ctx : Context) (out : List OutMsg) (idx : Nat) (task : Task)
    (g : String) (pcm ml : List Nat)
    (hph : task.phase = .p0) (hk : task.kind = .initial)
    (hg : task.orc.gen = some g) (htts : task.orc.tts = some pcm)
    (hnf : task.orc.sendFail = none) (hml : ttsToMulaw pcm = some ml) :
    (execTask ((chunk640 ml).length + 4) ctx out idx task).2.1 =
      out ++ (chunk640 ml).map (fun c => OutMsg.media .initial idx ctx.stream_sid c) ++
        [OutMsg.markMsg idx ctx.stream_sid "audio_complete"] ∧
    (chunk640 ml).length = (ml.length + 639) / 640 ∧
    (∀ c ∈ chunk640 ml, c.length ≤ 640) ∧
    (chunk640 ml).flatten = ml ∧
    (execTask ((chunk640 ml).length + 4) ctx out idx task).2.2.sleeps =
      task.sleeps + (chunk640 ml).length ∧
    isDone (execTask ((chunk640 ml).length + 4) ctx out idx task).2.2.phase = true := by
  obtain ⟨kk, ph, orc, acq, sl⟩ := task
  simp only [Task.phase, Task.kind] at hph hk
  subst hph
  subst hk
  have hg' : orc.gen = some g := hg
  have htts' : orc.tts = some pcm := htts
  have hnf' : orc.sendFail = none := hnf
  rw [show (chunk640 ml).length + 4 = 3 + ((chunk640 ml).length + 1) by omega]
  rw [execTask_add]
  have h3 : execTask 3 ctx out idx ⟨.initial, .p0, orc, acq, sl⟩ =
      ({ ctx with conversation_history := ctx.conversation_history ++ [("assistant", g)] },
        out, ⟨.initial, .awaitTts, orc, acq, sl⟩) := by
    simp [execTask, stepTask, hg']
  rw [h3]
  rw [exec_tts _ _ _ _ pcm ml rfl htts' hnf' hml]
  refine ⟨by simp, chunk640_length ml, chunk640_le ml, chunk640_flatten ml, by simp,
    by simp [isDone]⟩

/-- Concrete session context for the C5 witness. -/
def wCtx5 : Context := { stream_sid := "MZtest" }

/-- Concrete initial-turn task for the C5 witness: a 3-sample TTS result
that resamples to the single mu-law byte 242. -/
def wTask5 : Task :=
  { kind := .initial, phase := .p0,
    orc := { gen := some "hello", tts := some [100, 0, 100, 0, 100, 0] } }

/-- Witness for C5 at the concrete task `wTask5`. -/
theorem paced_chunked_send_witness :
    (wTask5.phase = .p0 ∧ wTask5.kind = .initial ∧ wTask5.orc.gen = some "hello" ∧
      wTask5.orc.tts = some [100, 0, 100, 0, 100, 0] ∧ wTask5.orc.sendFail = none ∧
      ttsToMulaw [100, 0, 100, 0, 100, 0] = some [242]) ∧
    ((execTask ((chunk640 [242]).length + 4) wCtx5 [] 0 wTask5).2.1 =
      [] ++ (chunk640 [242]).map (fun c => OutMsg.media .initial 0 wCtx5.stream_sid c) ++
        [OutMsg.markMsg 0 wCtx5.stream_sid "audio_complete"] ∧
    (chunk640 [242]).length = (([242] : List Nat).length + 639) / 640 ∧
    (∀ c ∈ chunk640 [242], c.length ≤ 640) ∧
    (chunk640 [242]).flatten = [242] ∧
    (execTask ((chunk640 [242]).length + 4) wCtx5 [] 0 wTask5).2.2.sleeps =
      wTask5.sleeps + (chunk640 [242]).length ∧
    isDone (execTask ((chunk640 [242]).length + 4) wCtx5 [] 0 wTask5).2.2.phase = true) :=
  ⟨⟨rfl, rfl, rfl, rfl, rfl, by decide⟩,
    paced_chunked_send wCtx5 [] 0 wTask5 "hello" [100, 0, 100, 0, 100, 0] [242]
      rfl rfl rfl rfl rfl (by decide)⟩

/-! ## Claim C6 -/

/-- C6: a speech-to-text result that is empty or trims to fewer than two
characters aborts the turn silently — after the guard acquisition and the
transcription await, the task finishes with the transcript unchanged, no
outbound message sent, and `is_processing` back to false. -/
theorem short_transcription_aborts (ctx : Context) (out : List OutMsg) (idx : Nat)
    (task : Task) (t : String)
    (hb : ctx.is_processing = false) (hbuf : ctx.audio_buffer ≠ [])
    (hk : task.kind = .process) (hph : task.phase = .p0)
    (hstt : task.orc.stt = some t) (hshort : t = "" ∨ (pyStrip t).length < 2) :
    (execTask 2 ctx out idx task).1.conversation_history = ctx.conversation_history ∧
    (execTask 2 ctx out idx task).2.1 = out ∧
    (execTask 2 ctx out idx task).1.is_processing = false ∧
    isDone (execTask 2 ctx out idx task).2.2.phase = true := by
  obtain ⟨kk, ph, orc, acq, sl⟩ := task
  simp only [Task.phase, Task.kind] at hph hk
  subst hph
  subst hk
  have hstt' : orc.stt = some t := hstt
  have hbe : ctx.audio_buffer.isEmpty = false := by
    rcases hctx : ctx.audio_buffer with _ | ⟨a, l⟩
    · exact absurd hctx hbuf
    · rfl
  simp [execTask, stepTask, hb, hbe, hstt', hshort, isDone, release]

/-- Concrete context (a two-byte accumulated buffer) for the C6 witness. -/
def wCtx6 : Context := { audio_buffer := [0, 0] }

/-- Concrete processing task whose transcription comes back empty, for the
C6 witness. -/
def wTask6 : Task := { kind := .process, phase := .p0, orc := { stt := some "" } }

/-- Witness for C6 with an empty transcription. -/
theorem short_transcription_aborts_witness :
    (wCtx6.is_processing = false ∧ wCtx6.audio_buffer ≠ [] ∧ wTask6.kind = .process ∧
      wTask6.phase = .p0 ∧ wTask6.orc.stt = some "" ∧
      (("" : String) = "" ∨ (pyStrip ("" : String)).length < 2)) ∧
    ((execTask 2 wCtx6 [] 0 wTask6).1.conversation_history = wCtx6.conversation_history ∧
    (execTask 2 wCtx6 [] 0 wTask6).2.1 = [] ∧
    (execTask 2 wCtx6 [] 0 wTask6).1.is_processing = false ∧
    isDone (execTask 2 wCtx6 [] 0 wTask6).2.2.phase = true) :=
  ⟨⟨rfl, by decide, rfl, rfl, rfl, Or.inl rfl⟩,
    short_transcription_aborts wCtx6 [] 0 wTask6 "" rfl (by decide) rfl rfl rfl (Or.inl rfl)⟩

/-! ## Claim C10 -/

/-- C10: in `_generate_and_send` the assistant reply is appended to the
transcript (after its broadcast) before `_tts` is awaited; if synthesis
raises, or the very first send raises, the exception is swallowed, the
task ends, no outbound message of the turn was sent, and the appended
assistant entry remains — no rollback. -/
theorem assistant_appended_no_rollback (ctx : Context) (out : List OutMsg) (idx : Nat)
    (task : Task) (g : String)
    (hph : task.phase = .awaitGen) (hg : task.orc.gen = some g) :
    ((execTask 2 ctx out idx task).1.conversation_history =
        ctx.conversation_history ++ [("assistant", g)] ∧
      (execTask 2 ctx out idx task).2.1 = out ∧
      (execTask 2 ctx out idx task).2.2.phase = .awaitTts) ∧
    (task.orc.tts = none →
      (execTask 3 ctx out idx task).1.conversation_history =
        ctx.conversation_history ++ [("assistant", g)] ∧
      (execTask 3 ctx out idx task).2.1 = out ∧
      isDone (execTask 3 ctx out idx task).2.2.phase = true) ∧
    (∀ pcm, task.orc.tts = some pcm → task.orc.sendFail = some 0 →
      (execTask 3 ctx out idx task).1.conversation_history =
        ctx.conversation_history ++ [("assistant", g)] ∧
      (execTask 3 ctx out idx task).2.1 = out ∧
      isDone (execTask 3 ctx out idx task).2.2.phase = true) := by
  obtain ⟨kk, ph, orc, acq, sl⟩ := task
  simp only [Task.phase, Task.orc] at hph hg
  subst hph
  refine ⟨?_, ?_, ?_⟩
  · simp [execTask, stepTask, hg]
  · intro h0
    have h0' : orc.tts = none := h0
    cases kk <;> simp [execTask, stepTask, hg, h0', release, isDone]
  · intro pcm h1 h2
    have h1' : orc.tts = some pcm := h1
    have h2' : orc.sendFail = some 0 := h2
    rcases hm : ttsToMulaw pcm with _ | ml
    · cases kk <;> simp [execTask, stepTask, hg, h1', h2', hm, release, isDone]
    · rcases hc : chunk640 ml with _ | ⟨c, rest⟩ <;>
        cases kk <;> simp [execTask, stepTask, sendStep, hg, h1', h2', hm, hc, release, isDone]

/-- Concrete generate-and-send task whose synthesis call fails, for the
C10 witness. -/
def wTask10 : Task := { kind := .process, phase := .awaitGen, orc := { gen := some "ok" } }

/-- Witness for C10: the assistant entry survives a failed synthesis. -/
theorem assistant_appended_no_rollback_witness :
    (wTask10.phase = .awaitGen ∧ wTask10.orc.gen = some "ok" ∧ wTask10.orc.tts = none) ∧
    ((execTask 3 ({} : Context) [] 0 wTask10).1.conversation_history =
        ({} : Context).conversation_history ++ [("assistant", "ok")] ∧
      (execTask 3 ({} : Context) [] 0 wTask10).2.1 = [] ∧
      isDone (execTask 3 ({} : Context) [] 0 wTask10).2.2.phase = true) :=
  ⟨⟨rfl, rfl, rfl⟩,
    (assistant_appended_no_rollback ({} : Context) [] 0 wTask10 "ok" rfl rfl).2.1 rfl⟩

/-! ## Claim C4 -/

/-- Does this inbound frame raise inside the handler?  A `media` frame
with a missing/undecodable payload, a `start` frame whose `start` or
`customParameters` value is not an object, or an unparsable frame. -/
def raising : InEvent → Bool
  | .media none => true
  | .startBad => true
  | .badText => true
  | _ => false

/-- Custom parameters carried by the C4 counterexample's `start` frame. -/
def wCp4 : CustomParams := { providerName := some "Acme Dental" }

/-- A well-formed `start` frame for the C4 counterexample. -/
def wStart4 : InEvent := .start (some "MZ1") (some { callSid := some "CA1", customParameters := some wCp4 })

/-- Concrete run for the C4 counterexample: a malformed `media` frame
followed by a well-formed `start` frame. -/
def wSys4 : Sys :=
  { ctx := {}, tasks := [], out := [], events := [.media none, wStart4], supply := [], loopAlive := true }

/-- C4 counterexample: a `media` event with a missing payload raises out
of the handler; the receive loop dies and the following `start` event is
never processed (the context keeps its empty defaults, no task is
scheduled) — contradicting the claim that malformed payloads are ignored
and processing continues. -/
theorem malformed_media_kills_loop_cx :
    (runSys wSys4 [.deliver, .deliver]).loopAlive = false ∧
    (runSys wSys4 [.deliver, .deliver]).ctx.provider_name = "" ∧
    (runSys wSys4 [.deliver, .deliver]).tasks = [] := by
  decide

/-- C4 (amended): inbound frames other than a payload-less `media` frame,
a `start` frame with a wrongly-typed `start`/`customParameters` object,
or an unparsable frame never terminate the loop — missing fields of
`connected`/`start`/`stop`/`mark` (and unknown event tags) are tolerated,
with `start` substituting the documented defaults for every absent
field — but the raising frames (payload-less `media`, wrongly-typed
`start`, unparsable text) end the receive loop. -/
theorem event_tolerance :
    (∀ (s : Sys) (e : InEvent) (rest : List InEvent),
      s.loopAlive = true → s.events = e :: rest → raising e = false →
      (stepSys s .deliver).loopAlive = true ∧ (stepSys s .deliver).events = rest) ∧
    (∀ (s : Sys) (rest : List InEvent),
      s.loopAlive = true → s.events = (InEvent.start none none) :: rest →
      (stepSys s .deliver).ctx.provider_name = "the business" ∧
      (stepSys s .deliver).ctx.service = "appointment" ∧
      (stepSys s .deliver).ctx.user_name = "a customer" ∧
      (stepSys s .deliver).ctx.purpose = "new_appointment" ∧
      (stepSys s .deliver).ctx.details = "" ∧
      (stepSys s .deliver).ctx.time_preference = "flexible" ∧
      (stepSys s .deliver).ctx.stream_sid = "" ∧
      (stepSys s .deliver).ctx.call_sid = "") ∧
    (∀ (s : Sys) (rest : List InEvent),
      s.loopAlive = true → s.events = InEvent.startBad :: rest →
      (stepSys s .deliver).loopAlive = false ∧ (stepSys s .deliver).tasks = s.tasks) := by
  refine ⟨?_, ?_, ?_⟩
  · intro s e rest halive hev hraise
    simp only [stepSys, halive, hev, if_true]
    cases e with
    | connected => simp [handleEvent]
    | start ss info => simp [handleEvent, spawnTask]
    | startBad => simp [raising] at hraise
    | media p =>
      cases p with
      | none => simp [raising] at hraise
      | some bs => simp [handleEvent, spawnTask]; split <;> simp [spawnTask]
    | stop => simp [handleEvent]
    | markEvt => simp [handleEvent]
    | unknown => simp [handleEvent]
    | badText => simp [raising] at hraise
  · intro s rest halive hev
    simp [stepSys, halive, hev, handleEvent, spawnTask]
  · intro s rest halive hev
    simp [stepSys, halive, hev, handleEvent]

/-- A session about to receive a single fieldless `start` frame, for the
C4 witness. -/
def wSys4b : Sys :=
  { ctx := {}, tasks := [], out := [], events := [InEvent.start none none], supply := [], loopAlive := true }

/-- A session about to receive a `start` frame whose `start` value is not
an object, for the C4 witness. -/
def wSys4c : Sys :=
  { ctx := {}, tasks := [], out := [], events := [InEvent.startBad], supply := [], loopAlive := true }

/-- Witness for C4 (amended): a fieldless `start` frame is defaulted and
tolerated; a wrongly-typed `start` frame kills the loop. -/
theorem event_tolerance_witness :
    (wSys4b.loopAlive = true ∧ wSys4b.events = [InEvent.start none none] ∧
      raising (InEvent.start none none) = false) ∧
    ((stepSys wSys4b .deliver).loopAlive = true ∧
      (stepSys wSys4b .deliver).events = [] ∧
      (stepSys wSys4b .deliver).ctx.provider_name = "the business" ∧
      (stepSys wSys4b .deliver).ctx.time_preference = "flexible") ∧
    (wSys4c.loopAlive = true ∧ wSys4c.events = [InEvent.startBad] ∧
      (stepSys wSys4c .deliver).loopAlive = false) := by
  refine ⟨⟨rfl, rfl, rfl⟩, ⟨?_, ?_, ?_, ?_⟩, rfl, rfl, ?_⟩
  · exact (event_tolerance.1 wSys4b (InEvent.start none none) [] rfl rfl rfl).1
  · exact (event_tolerance.1 wSys4b (InEvent.start none none) [] rfl rfl rfl).2
  · exact (event_tolerance.2.1 wSys4b [] rfl rfl).1
  · exact (event_tolerance.2.1 wSys4b [] rfl rfl).2.2.2.2.2.1
  · exact (event_tolerance.2.2 wSys4c [] rfl rfl).1

/-! ## Claim C2 -/

/-- Decoded payload length an inbound frame contributes to the
accumulator. -/
def evLen : InEvent → Nat
  | .media (some p) => p.length
  | _ => 0

/-- Total decoded payload bytes of a list of inbound frames. -/
def eventsBytes (es : List InEvent) : Nat := (es.map evLen).sum

/-- Replacing one element changes `countP` by the difference of the two
elements' predicate values. -/
theorem countP_set' (p : Task → Bool) (l : List Task) :
    ∀ (i : Nat) (a b : Task), l[i]? = some b →
      (l.set i a).countP p + (if p b then 1 else 0) = l.countP p + (if p a then 1 else 0) := by
  induction l with
  | nil => intro i a b h; simp at h
  | cons x xs ih =>
    intro i a b h
    cases i with
    | zero =>
      simp only [List.getElem?_cons_zero, Option.some_inj] at h
      subst h
      simp only [List.set_cons_zero, List.countP_cons]
      omega
    | succ n =>
      simp only [List.getElem?_cons_succ] at h
      simp only [List.set_cons_succ, List.countP_cons]
      have := ih n a b h
      omega

/-- Invariant for the below-threshold scenario: no task exists and the
accumulated plus still-pending bytes stay below the threshold. -/
def BelowThreshold (s : Sys) : Prop :=
  s.tasks = [] ∧ (∀ e ∈ s.events, ∃ p, e = InEvent.media (some p)) ∧
    s.ctx.audio_buffer.length + eventsBytes s.events < 16000

theorem belowThreshold_step (s : Sys) (c : Choice) (h : BelowThreshold s) :
    BelowThreshold (stepSys s c) := by
  obtain ⟨htasks, hms, hlt⟩ := h
  cases c with
  | run i =>
    simp only [stepSys, htasks, List.getElem?_nil]
    exact ⟨htasks, hms, hlt⟩
  | deliver =>
    rcases hal : s.loopAlive with _ | _
    · simp only [stepSys, hal, Bool.false_eq_true, if_false]
      exact ⟨htasks, hms, hlt⟩
    · rcases hev : s.events with _ | ⟨e, rest⟩
      · simp only [stepSys, hal, if_true, hev]
        exact ⟨htasks, hms, hev ▸ hlt⟩
      · obtain ⟨p, rfl⟩ := hms e (by rw [hev]; exact List.mem_cons_self e rest)
        have hlt' : s.ctx.audio_buffer.length + (p.length + eventsBytes rest) < 16000 := by
          rw [hev] at hlt
          simpa [eventsBytes, evLen] using hlt
        simp only [stepSys, hal, if_true, hev, handleEvent]
        rw [if_neg (by simp [List.length_append]; omega)]
        refine ⟨htasks, ?_, ?_⟩
        · intro e he
          exact hms e (by rw [hev]; exact List.mem_cons_of_mem _ he)
        · simp only [List.length_append]
          omega

theorem belowThreshold_run (s : Sys) (cs : List Choice) (h : BelowThreshold s) :
    BelowThreshold (runSys s cs) := by
  induction cs generalizing s with
  | nil => exact h
  | cons c cs ih => exact ih _ (belowThreshold_step s c h)

/-- One task segment from a state with an empty accumulator neither
refills the accumulator nor acquires the single-flight guard, and keeps
the task's kind. -/
theorem stepTask_of_empty (ctx : Context) (out : List OutMsg) (idx : Nat) (t : Task)
    (h : ctx.audio_buffer = []) :
    (stepTask ctx out idx t).1.audio_buffer = [] ∧
    (stepTask ctx out idx t).2.2.acquired = t.acquired ∧
    (stepTask ctx out idx t).2.2.kind = t.kind := by
  obtain ⟨kk, ph, orc, acq, sl⟩ := t
  cases ph <;> cases kk <;>
    simp only [stepTask, sendStep, release] <;>
    (repeat' split) <;>
    simp_all

/-- Invariant for the at-threshold scenario: no frames pending, every
task is a processing task, and either nothing has started yet (guard
free, buffer nonempty, all tasks unstarted) or exactly one task has
drained the buffer. -/
def SingleDrain (s : Sys) : Prop :=
  s.events = [] ∧ s.tasks ≠ [] ∧ (∀ t ∈ s.tasks, t.kind = .process) ∧
  ((s.ctx.is_processing = false ∧ s.ctx.audio_buffer ≠ [] ∧
      (∀ t ∈ s.tasks, t.phase = .p0 ∧ t.acquired = false)) ∨
    (s.tasks.countP (fun t => t.acquired) = 1 ∧ s.ctx.audio_buffer = []))

theorem singleDrain_step (s : Sys) (c : Choice) (h : SingleDrain s) :
    SingleDrain (stepSys s c) := by
  obtain ⟨hev, hne, hkinds, hcase⟩ := h
  cases c with
  | deliver =>
    rcases hal : s.loopAlive with _ | _
    · simp only [stepSys, hal, Bool.false_eq_true, if_false]
      exact ⟨hev, hne, hkinds, hcase⟩
    · simp only [stepSys, hal, if_true, hev]
      exact ⟨hev, hne, hkinds, hcase⟩
  | run i =>
    rcases hget : s.tasks[i]? with _ | t
    · simp only [stepSys, hget]
      exact ⟨hev, hne, hkinds, hcase⟩
    · have htmem : t ∈ s.tasks := List.getElem?_mem hget
      simp only [stepSys, hget]
      rcases hcase with ⟨hb, hbuf, hall⟩ | ⟨hcount, hbuf⟩
      · -- nothing started yet: this segment must be the acquisition
        have hph : t.phase = .p0 := (hall t htmem).1
        have hacq : t.acquired = false := (hall t htmem).2
        have hkind : t.kind = .process := hkinds t htmem
        have hbe : s.ctx.audio_buffer.isEmpty = false := by
          rcases hx : s.ctx.audio_buffer with _ | ⟨a, l⟩
          · exact absurd hx hbuf
          · rfl
        obtain ⟨kk, ph, orc, acq, sl⟩ := t
        simp only [Task.phase, Task.kind, Task.acquired] at hph hkind hacq
        subst hph
        subst hkind
        subst hacq
        simp only [stepTask, hb, hbe, Bool.or_self, Bool.false_eq_true, if_false]
        refine ⟨hev, ?_, ?_, Or.inr ⟨?_, rfl⟩⟩
        · intro hnil
          exact hne (by simpa using congrArg List.length hnil)
        · intro t' ht'
          rcases List.mem_or_eq_of_mem_set ht' with hmem | rfl
          · exact hkinds t' hmem
          · rfl
        · have hzero : s.tasks.countP (fun t => t.acquired) = 0 := by
            rw [List.countP_eq_zero]
            intro t' ht'
            simp [(hall t' ht').2]
          have := countP_set' (fun t => t.acquired) s.tasks i
            ⟨.process, .awaitStt, orc, true, sl⟩ ⟨.process, .p0, orc, false, sl⟩ hget
          simp only [Task.acquired] at this
          simp only [hzero] at this
          simpa using this
      · -- one task has drained: nothing else can start or acquire
        have hstep := stepTask_of_empty s.ctx s.out i t hbuf
        refine ⟨hev, ?_, ?_, Or.inr ⟨?_, hstep.1⟩⟩
        · intro hnil
          exact hne (by simpa using congrArg List.length hnil)
        · intro t' ht'
          rcases List.mem_or_eq_of_mem_set ht' with hmem | rfl
          · exact hkinds t' hmem
          · rw [hstep.2.2]
            exact hkinds t htmem
        · have hc := countP_set' (fun t => t.acquired) s.tasks i
            (stepTask s.ctx s.out i t).2.2 t hget
          simp only [hstep.2.1] at hc
          show (s.tasks.set i (stepTask s.ctx s.out i t).2.2).countP (fun t => t.acquired) = 1
          omega

theorem singleDrain_run (s : Sys) (cs : List Choice) (h : SingleDrain s) :
    SingleDrain (runSys s cs) := by
  induction cs generalizing s with
  | nil => exact h
  | cons c cs ih => exact ih _ (singleDrain_step s c h)

/-- A fresh session about to receive only media frames with the given
decoded payloads. -/
def mediaEventsSys (ctx : Context) (ps : List (List Nat)) (supply : List Oracle) : Sys :=
  { ctx := ctx, tasks := [], out := [],
    events := ps.map (fun p => InEvent.media (some p)), supply := supply, loopAlive := true }

/-- A session with trigger tasks already scheduled and no frames still
pending. -/
def drainSys (ctx : Context) (tasks : List Task) (out : List OutMsg) : Sys :=
  { ctx := ctx, tasks := tasks, out := out, events := [], supply := [], loopAlive := true }

/-- A list of media frames contributes exactly its decoded payload
lengths. -/
theorem eventsBytes_map_media (ps : List (List Nat)) :
    eventsBytes (ps.map (fun p => InEvent.media (some p))) = (ps.map List.length).sum := by
  induction ps with
  | nil => simp [eventsBytes]
  | cons q qs ih => simpa [eventsBytes, evLen] using ih

/-- C2: (a) media frames decoding to fewer than 16000 accumulated bytes
never trigger a pipeline task, under any scheduling; (b) from an
accumulator at or past 16000 bytes with the guard free, however many
trigger tasks were scheduled, a completed run has exactly one of them
drain the buffer and execute — the others fall out at the re-check
guard. -/
theorem threshold_single_execution :
    (∀ (ctx : Context) (ps : List (List Nat)) (supply : List Oracle) (cs : List Choice),
      ctx.audio_buffer = [] → ctx.is_processing = false →
      (ps.map List.length).sum < 16000 →
      (runSys (mediaEventsSys ctx ps supply) cs).tasks = []) ∧
    (∀ (ctx : Context) (tasks : List Task) (out : List OutMsg) (cs : List Choice),
      ctx.is_processing = false → 16000 ≤ ctx.audio_buffer.length →
      tasks ≠ [] →
      (∀ t ∈ tasks, t.kind = .process ∧ t.phase = .p0 ∧ t.acquired = false) →
      (∀ t ∈ (runSys (drainSys ctx tasks out) cs).tasks, isDone t.phase = true) →
      (runSys (drainSys ctx tasks out) cs).tasks.countP (fun t => t.acquired) = 1) := by
  constructor
  · intro ctx ps supply cs hbuf hb hsum
    refine (belowThreshold_run _ cs ?_).1
    refine ⟨rfl, ?_, ?_⟩
    · intro e he
      simp only [mediaEventsSys] at he
      obtain ⟨p, hp, rfl⟩ := List.mem_map.mp he
      exact ⟨p, rfl⟩
    · simp only [mediaEventsSys, hbuf, List.length_nil, eventsBytes_map_media]
      omega
  · intro ctx tasks out cs hb hlen hne hall hdone
    have hfin := singleDrain_run (drainSys ctx tasks out) cs (by
      refine ⟨rfl, hne, fun t ht => (hall t ht).1, Or.inl ⟨hb, ?_, fun t ht => (hall t ht).2⟩⟩
      intro hnil
      simp only [drainSys] at hnil
      rw [hnil] at hlen
      simp at hlen)
    rcases hfin.2.2.2 with ⟨_, _, hallp0⟩ | ⟨hcount, _⟩
    · rcases hx : (runSys (drainSys ctx tasks out) cs).tasks with _ | ⟨t0, ts⟩
      · exact absurd hx hfin.2.1
      · have h1 := (hallp0 t0 (by rw [hx]; exact List.mem_cons_self t0 ts)).1
        have h2 := hdone t0 (by rw [hx]; exact List.mem_cons_self t0 ts)
        rw [h1] at h2
        simp [isDone] at h2
    · exact hcount

/-- Concrete at-threshold session for the C2 witness: a 16000-byte
accumulator and one scheduled trigger task. -/
def wCtx2 : Context := { audio_buffer := List.replicate 16000 0 }

/-- Witness for C2: one pending media frame below threshold spawns
nothing; one trigger task over a full accumulator acquires exactly
once. -/
theorem threshold_single_execution_witness :
    ((Context.audio_buffer {} = [] ∧ Context.is_processing {} = false ∧
        (([[0, 0]] : List (List Nat)).map List.length).sum < 16000) ∧
      (runSys (mediaEventsSys {} [[0, 0]] []) [.deliver]).tasks = []) ∧
    ((wCtx2.is_processing = false ∧ 16000 ≤ wCtx2.audio_buffer.length ∧
        ([wTask6] : List Task) ≠ [] ∧
        (∀ t ∈ [wTask6], t.kind = .process ∧ t.phase = .p0 ∧ t.acquired = false) ∧
        (∀ t ∈ (runSys (drainSys wCtx2 [wTask6] []) [.run 0, .run 0]).tasks,
          isDone t.phase = true)) ∧
      (runSys (drainSys wCtx2 [wTask6] []) [.run 0, .run 0]).tasks.countP
        (fun t => t.acquired) = 1) := by
  constructor
  · refine ⟨⟨rfl, rfl, by decide⟩, ?_⟩
    exact threshold_single_execution.1 {} [[0, 0]] [] [.deliver] rfl rfl (by decide)
  · have hwlen : 16000 ≤ wCtx2.audio_buffer.length := by
      rw [show wCtx2.audio_buffer = List.replicate 16000 0 from rfl, List.length_replicate]
    refine ⟨⟨rfl, hwlen, by decide, by decide, ?_⟩, ?_⟩
    · decide
    · exact threshold_single_execution.2 wCtx2 [wTask6] [] [.run 0, .run 0] rfl
        hwlen (by decide) (by decide) (by decide)

/-! ## Claim C1: the single-flight invariant -/

/-- `dedupAdj` of a nonempty list is nonempty. -/
theorem dedupAdj_ne_nil : ∀ (l : List Nat), l ≠ [] → dedupAdj l ≠ [] := by
  intro l
  induction l with
  | nil => intro h; exact absurd rfl h
  | cons a tail ih =>
    intro _
    rcases tail with _ | ⟨b, l⟩
    · simp [dedupAdj]
    · by_cases hab : a = b
      · rw [dedupAdj, if_pos hab]
        exact ih (by simp)
      · rw [dedupAdj, if_neg hab]
        simp

/-- Collapsing adjacent duplicates keeps the last element. -/
theorem getLast?_dedupAdj : ∀ (l : List Nat), (dedupAdj l).getLast? = l.getLast? := by
  intro l
  induction l with
  | nil => rfl
  | cons a tail ih =>
    rcases tail with _ | ⟨b, l⟩
    · rfl
    · by_cases hab : a = b
      · rw [dedupAdj, if_pos hab, ih, List.getLast?_cons_cons]
      · rw [dedupAdj, if_neg hab]
        rcases hx : dedupAdj (b :: l) with _ | ⟨y, ys⟩
        · exact absurd hx (dedupAdj_ne_nil (b :: l) (by simp))
        · rw [List.getLast?_cons_cons, ← hx, ih, List.getLast?_cons_cons]

/-- How `dedupAdj` treats an appended element. -/
theorem dedupAdj_snoc : ∀ (l : List Nat) (a : Nat),
    dedupAdj (l ++ [a]) = if l.getLast? = some a then dedupAdj l else dedupAdj l ++ [a] := by
  intro l
  induction l with
  | nil => intro a; simp [dedupAdj]
  | cons x tail ih =>
    intro a
    rcases tail with _ | ⟨y, l⟩
    · by_cases hxa : x = a
      · subst hxa
        simp [dedupAdj]
      · simp [dedupAdj, hxa]
    · have ih' := ih a
      simp only [List.cons_append] at ih' ⊢
      by_cases hxy : x = y
      · rw [dedupAdj, if_pos hxy, ih', List.getLast?_cons_cons]
        split
        · rw [dedupAdj, if_pos hxy]
        · rw [dedupAdj, if_pos hxy]
      · rw [dedupAdj, if_neg hxy, ih', List.getLast?_cons_cons]
        split
        · rw [dedupAdj, if_neg hxy]
        · rw [dedupAdj, if_neg hxy]
          simp

/-- Appending a processing task's media message appends its tag. -/
theorem procTags_media_process (out : List OutMsg) (i : Nat) (sid : String) (c : List Nat) :
    procTags (out ++ [.media .process i sid c]) = procTags out ++ [i] := by
  simp [procTags, List.filterMap_append, isProcessKind]

/-- An initial-turn media message contributes no processing tag. -/
theorem procTags_media_initial (out : List OutMsg) (i : Nat) (sid : String) (c : List Nat) :
    procTags (out ++ [.media .initial i sid c]) = procTags out := by
  simp [procTags, List.filterMap_append, isProcessKind]

/-- A mark message contributes no processing tag. -/
theorem procTags_mark (out : List OutMsg) (i : Nat) (sid : String) (nm : String) :
    procTags (out ++ [.markMsg i sid nm]) = procTags out := by
  simp [procTags, List.filterMap_append]

/-- A predicate holding at two distinct positions bounds `countP` below
by two. -/
theorem two_le_countP (p : Task → Bool) : ∀ (l : List Task) (i j : Nat) (a b : Task),
    l[i]? = some a → l[j]? = some b → i ≠ j → p a = true → p b = true →
    2 ≤ l.countP p := by
  intro l
  induction l with
  | nil => intro i j a b hi; simp at hi
  | cons x xs ih =>
    intro i j a b hi hj hij hpa hpb
    cases i with
    | zero =>
      simp only [List.getElem?_cons_zero, Option.some_inj] at hi
      subst hi
      cases j with
      | zero => exact absurd rfl hij
      | succ m =>
        simp only [List.getElem?_cons_succ] at hj
        have h1 : 0 < xs.countP p := List.countP_pos.mpr ⟨b, List.getElem?_mem hj, hpb⟩
        have h2 : (x :: xs).countP p = xs.countP p + 1 := by
          rw [List.countP_cons, hpa]
          rfl
        omega
    | succ n =>
      simp only [List.getElem?_cons_succ] at hi
      cases j with
      | zero =>
        simp only [List.getElem?_cons_zero, Option.some_inj] at hj
        subst hj
        have h1 : 0 < xs.countP p := List.countP_pos.mpr ⟨a, List.getElem?_mem hi, hpa⟩
        have h2 : (x :: xs).countP p = xs.countP p + 1 := by
          rw [List.countP_cons, hpb]
          rfl
        omega
      | succ m =>
        simp only [List.getElem?_cons_succ] at hj
        have h2 := ih n m a b hi hj (by omega) hpa hpb
        simp only [List.countP_cons]
        omega

/-- A position where the predicate holds bounds `countP` below by one. -/
theorem one_le_countP (p : Task → Bool) (l : List Task) (i : Nat) (a : Task)
    (h : l[i]? = some a) (hp : p a = true) : 1 ≤ l.countP p :=
  List.countP_pos.mpr ⟨a, List.getElem?_mem h, hp⟩

/-- Every tag in the collapsed processing-send log belongs to a
processing task that is either finished, or still in flight and the
current (last) block of the log. -/
def tagOk (s : Sys) (i : Nat) : Prop :=
  ∃ t, s.tasks[i]? = some t ∧ isProcessKind t.kind = true ∧
    (isDone t.phase = true ∨
      (inFlight t = true ∧ (dedupAdj (procTags s.out)).getLast? = some i))

/-- The single-flight invariant: the `is_processing` flag counts the
in-flight processing executions (hence at most one); the processing-send
log is block-structured (no tag resumes after another intervened); and
every logged block belongs to a finished execution except possibly the
last, which may belong to the one in flight. -/
def Guarded (s : Sys) : Prop :=
  s.tasks.countP inFlight = (if s.ctx.is_processing = true then 1 else 0) ∧
  (dedupAdj (procTags s.out)).Nodup ∧
  ∀ i ∈ dedupAdj (procTags s.out), tagOk s i

/-- A finished task is not in flight. -/
theorem inFlight_eq_false_of_done (t : Task) (h : isDone t.phase = true) :
    inFlight t = false := by
  simp [inFlight, h]

/-- Invariance of `Guarded` under changes that leave the tasks, the
outbound log and the guard flag alone. -/
theorem guarded_of_fields (s s' : Sys) (h1 : s'.tasks = s.tasks) (h2 : s'.out = s.out)
    (h3 : s'.ctx.is_processing = s.ctx.is_processing) (h : Guarded s) : Guarded s' := by
  obtain ⟨hcnt, hnodup, htags⟩ := h
  refine ⟨by rw [h1, h3]; exact hcnt, by rw [h2]; exact hnodup, ?_⟩
  intro j hj
  rw [h2] at hj
  obtain ⟨u, hu, hpu, hcase⟩ := htags j hj
  refine ⟨u, ?_, hpu, ?_⟩
  · rw [h1]; exact hu
  · rw [h2]; exact hcase

/-- Scheduling a fresh (not yet started) task preserves the invariant. -/
theorem guarded_spawn (s : Sys) (k : TaskKind) (h : Guarded s) : Guarded (spawnTask s k) := by
  obtain ⟨hcnt, hnodup, htags⟩ := h
  refine ⟨?_, hnodup, ?_⟩
  · show (s.tasks ++ [_]).countP inFlight = _
    rw [List.countP_append]
    simpa [inFlight, isP0] using hcnt
  · intro j hj
    obtain ⟨u, hu, hpu, hcase⟩ := htags j hj
    have hlt : j < s.tasks.length := (List.getElem?_eq_some.mp hu).1
    refine ⟨u, ?_, hpu, hcase⟩
    show (s.tasks ++ [_])[j]? = some u
    rw [List.getElem?_append, if_pos hlt]
    exact hu

/-- A task segment that sends nothing tag-relevant, leaves the guard flag
alone, and preserves the task's flight status preserves the invariant. -/
theorem guarded_run_silent (s : Sys) (i : Nat) (t t' : Task) (c' : Context)
    (o' : List OutMsg)
    (hget : s.tasks[i]? = some t) (h : Guarded s)
    (hout : procTags o' = procTags s.out)
    (hbusy : c'.is_processing = s.ctx.is_processing)
    (hkind : t'.kind = t.kind)
    (hinF : inFlight t' = inFlight t)
    (hdone : isDone t.phase = true → isDone t'.phase = true) :
    Guarded { s with ctx := c', out := o', tasks := s.tasks.set i t' } := by
  obtain ⟨hcnt, hnodup, htags⟩ := h
  have hlt : i < s.tasks.length := (List.getElem?_eq_some.mp hget).1
  refine ⟨?_, ?_, ?_⟩
  · show (s.tasks.set i t').countP inFlight = _
    have hc := countP_set' inFlight s.tasks i t' t hget
    rw [hinF] at hc
    show _ = (if c'.is_processing = true then 1 else 0)
    rw [hbusy]
    omega
  · show (dedupAdj (procTags o')).Nodup
    rw [hout]
    exact hnodup
  · intro j hj
    rw [show ({ s with ctx := c', out := o', tasks := s.tasks.set i t' } : Sys).out = o'
      from rfl, hout] at hj
    obtain ⟨u, hu, hpu, hcase⟩ := htags j hj
    by_cases hij : j = i
    · subst hij
      have hut : u = t := by
        rw [hget] at hu
        exact (Option.some_inj.mp hu).symm
      subst hut
      refine ⟨t', ?_, ?_, ?_⟩
      · exact List.getElem?_set_self hlt
      · rw [hkind]; exact hpu
      · rcases hcase with hd | ⟨hf, hl⟩
        · exact Or.inl (hdone hd)
        · refine Or.inr ⟨by rw [hinF]; exact hf, ?_⟩
          show (dedupAdj (procTags o')).getLast? = some j
          rw [hout]
          exact hl
    · refine ⟨u, ?_, hpu, ?_⟩
      · show (s.tasks.set i t')[j]? = some u
        rw [List.getElem?_set_ne (fun h => hij h.symm)]
        exact hu
      · rcases hcase with hd | ⟨hf, hl⟩
        · exact Or.inl hd
        · refine Or.inr ⟨hf, ?_⟩
          show (dedupAdj (procTags o')).getLast? = some j
          rw [hout]
          exact hl

/-- The acquisition segment — the `is_processing` false→true transition —
preserves the invariant. -/
theorem guarded_run_acquire (s : Sys) (i : Nat) (t t' : Task) (c' : Context)
    (hget : s.tasks[i]? = some t) (h : Guarded s)
    (hbusy0 : s.ctx.is_processing = false) (hbusy' : c'.is_processing = true)
    (hinF0 : inFlight t = false) (hinF' : inFlight t' = true)
    (ht_nd : isDone t.phase = false) :
    Guarded { s with ctx := c', out := s.out, tasks := s.tasks.set i t' } := by
  obtain ⟨hcnt, hnodup, htags⟩ := h
  have hlt : i < s.tasks.length := (List.getElem?_eq_some.mp hget).1
  rw [hbusy0] at hcnt
  simp only [Bool.false_eq_true, if_false] at hcnt
  refine ⟨?_, hnodup, ?_⟩
  · show (s.tasks.set i t').countP inFlight = _
    have hc := countP_set' inFlight s.tasks i t' t hget
    rw [hinF0, hinF'] at hc
    simp only [Bool.false_eq_true, if_false, if_pos rfl] at hc
    show _ = (if c'.is_processing = true then 1 else 0)
    rw [hbusy']
    simp only [if_pos rfl]
    omega
  · intro j hj
    obtain ⟨u, hu, hpu, hcase⟩ := htags j hj
    by_cases hij : j = i
    · subst hij
      have hut : u = t := by
        rw [hget] at hu
        exact (Option.some_inj.mp hu).symm
      subst hut
      rcases hcase with hd | ⟨hf, _⟩
      · rw [ht_nd] at hd
        exact absurd hd (by simp)
      · rw [hinF0] at hf
        exact absurd hf (by simp)
    · refine ⟨u, ?_, hpu, hcase⟩
      show (s.tasks.set i t')[j]? = some u
      rw [List.getElem?_set_ne (fun h => hij h.symm)]
      exact hu

/-- A segment that finishes a task (through the `finally`/`except`
paths), possibly emitting the final mark message, preserves the
invariant. -/
theorem guarded_run_release (s : Sys) (i : Nat) (t t' : Task) (c' : Context)
    (o' : List OutMsg)
    (hget : s.tasks[i]? = some t) (h : Guarded s)
    (hkind : t'.kind = t.kind)
    (hdone : isDone t'.phase = true)
    (hout : procTags o' = procTags s.out)
    (hcase : (inFlight t = false ∧ c'.is_processing = s.ctx.is_processing) ∨
      (inFlight t = true ∧ c'.is_processing = false)) :
    Guarded { s with ctx := c', out := o', tasks := s.tasks.set i t' } := by
  obtain ⟨hcnt, hnodup, htags⟩ := h
  have hlt : i < s.tasks.length := (List.getElem?_eq_some.mp hget).1
  have hf' : inFlight t' = false := inFlight_eq_false_of_done t' hdone
  refine ⟨?_, ?_, ?_⟩
  · show (s.tasks.set i t').countP inFlight = _
    have hc := countP_set' inFlight s.tasks i t' t hget
    rw [hf'] at hc
    show _ = (if c'.is_processing = true then 1 else 0)
    rcases hcase with ⟨hf0, hb⟩ | ⟨hf1, hb⟩
    · rw [hf0] at hc
      rw [hb]
      omega
    · have h1 : 1 ≤ s.tasks.countP inFlight := one_le_countP inFlight s.tasks i t hget hf1
      rw [hf1] at hc
      simp only [Bool.false_eq_true, if_false, if_pos rfl] at hc
      rw [hb]
      simp only [Bool.false_eq_true, if_false]
      rcases hsb : s.ctx.is_processing with _ | _
      · rw [hsb] at hcnt
        simp only [Bool.false_eq_true, if_false] at hcnt
        omega
      · rw [hsb] at hcnt
        simp only [if_pos rfl] at hcnt
        omega
  · show (dedupAdj (procTags o')).Nodup
    rw [hout]
    exact hnodup
  · intro j hj
    rw [show ({ s with ctx := c', out := o', tasks := s.tasks.set i t' } : Sys).out = o'
      from rfl, hout] at hj
    obtain ⟨u, hu, hpu, hcase'⟩ := htags j hj
    by_cases hij : j = i
    · subst hij
      refine ⟨t', List.getElem?_set_self hlt, ?_, Or.inl hdone⟩
      have hut : u = t := by
        rw [hget] at hu
        exact (Option.some_inj.mp hu).symm
      rw [hkind, ← hut]
      exact hpu
    · refine ⟨u, ?_, hpu, ?_⟩
      · show (s.tasks.set i t')[j]? = some u
        rw [List.getElem?_set_ne (fun h => hij h.symm)]
        exact hu
      · rcases hcase' with hd | ⟨hf, hl⟩
        · exact Or.inl hd
        · refine Or.inr ⟨hf, ?_⟩
          show (dedupAdj (procTags o')).getLast? = some j
          rw [hout]
          exact hl

/-- A chunk send by an in-flight processing execution preserves the
invariant: its tag lands at (or extends) the last block of the log, and
mutual exclusion rules out any other unfinished tagged execution. -/
theorem guarded_run_send_process (s : Sys) (i : Nat) (t t' : Task) (c' : Context)
    (sid : String) (c : List Nat)
    (hget : s.tasks[i]? = some t) (h : Guarded s)
    (hbusy : c'.is_processing = s.ctx.is_processing)
    (hk : isProcessKind t.kind = true) (hk' : isProcessKind t'.kind = true)
    (hinF : inFlight t = true) (hinF' : inFlight t' = true) :
    Guarded { s with ctx := c', out := s.out ++ [OutMsg.media TaskKind.process i sid c], tasks := s.tasks.set i t' } := by
  obtain ⟨hcnt, hnodup, htags⟩ := h
  have hlt : i < s.tasks.length := (List.getElem?_eq_some.mp hget).1
  have htags_eq : procTags (s.out ++ [OutMsg.media TaskKind.process i sid c]) =
      procTags s.out ++ [i] := procTags_media_process s.out i sid c
  have hddl : (dedupAdj (procTags s.out)).getLast? = (procTags s.out).getLast? :=
    getLast?_dedupAdj _
  refine ⟨?_, ?_, ?_⟩
  · show (s.tasks.set i t').countP inFlight = _
    have hc := countP_set' inFlight s.tasks i t' t hget
    rw [hinF, hinF'] at hc
    show _ = (if c'.is_processing = true then 1 else 0)
    rw [hbusy]
    omega
  · show (dedupAdj (procTags (s.out ++ [OutMsg.media TaskKind.process i sid c]))).Nodup
    rw [htags_eq, dedupAdj_snoc]
    split
    · exact hnodup
    · rename_i hlast
      have hnotmem : i ∉ dedupAdj (procTags s.out) := by
        intro hmem
        obtain ⟨u, hu, hpu, hcase⟩ := htags i hmem
        rw [hget] at hu
        have htu : t = u := Option.some_inj.mp hu
        subst htu
        rcases hcase with hd | ⟨_, hl⟩
        · rw [inFlight_eq_false_of_done t hd] at hinF
          exact absurd hinF (by simp)
        · rw [hddl] at hl
          exact hlast hl
      simp [List.nodup_append, hnodup, hnotmem]
  · intro j hj
    replace hj : j ∈ dedupAdj (procTags (s.out ++ [OutMsg.media TaskKind.process i sid c])) := hj
    rw [htags_eq, dedupAdj_snoc] at hj
    have hlast' : (dedupAdj (procTags (s.out ++ [OutMsg.media TaskKind.process i sid c]))).getLast? =
        some i := by
      rw [htags_eq, getLast?_dedupAdj, List.getLast?_concat]
    by_cases hij : j = i
    · subst hij
      exact ⟨t', List.getElem?_set_self hlt, hk', Or.inr ⟨hinF', hlast'⟩⟩
    · have hjmem : j ∈ dedupAdj (procTags s.out) := by
        revert hj
        split
        · exact fun hj => hj
        · intro hj
          rcases List.mem_append.mp hj with hmem | hmem
          · exact hmem
          · exact absurd (List.mem_singleton.mp hmem) hij
      obtain ⟨u, hu, hpu, hcase⟩ := htags j hjmem
      refine ⟨u, ?_, hpu, ?_⟩
      · show (s.tasks.set i t')[j]? = some u
        rw [List.getElem?_set_ne (fun h => hij h.symm)]
        exact hu
      · left
        rcases hcase with hd | ⟨hfu, _⟩
        · exact hd
        · exfalso
          have h2 := two_le_countP inFlight s.tasks j i u t hu hget hij hfu hinF
          have hb1 : s.tasks.countP inFlight ≤ 1 := by
            rw [hcnt]
            split <;> omega
          omega

/-- Every scheduler step — delivering an inbound frame or running one
task segment — preserves the single-flight invariant. -/
theorem guarded_step (s : Sys) (c : Choice) (h : Guarded s) : Guarded (stepSys s c) := by
  cases c with
  | deliver =>
    rcases hal : s.loopAlive with _ | _
    · simp only [stepSys, hal, Bool.false_eq_true, if_false]
      exact h
    · rcases hev : s.events with _ | ⟨e, rest⟩
      · simp only [stepSys, hal, hev]
        rw [if_pos trivial]
        exact h
      · simp only [stepSys, hal, hev]
        rw [if_pos trivial]
        cases e with
        | connected => exact guarded_of_fields s _ rfl rfl rfl h
        | start ss info =>
          exact guarded_spawn _ .initial (guarded_of_fields s _ rfl rfl rfl h)
        | startBad => exact guarded_of_fields s _ rfl rfl rfl h
        | media p =>
          cases p with
          | none => exact guarded_of_fields s _ rfl rfl rfl h
          | some bs =>
            simp only [handleEvent]
            split
            · exact guarded_spawn _ .process (guarded_of_fields s _ rfl rfl rfl h)
            · exact guarded_of_fields s _ rfl rfl rfl h
        | stop => exact guarded_of_fields s _ rfl rfl rfl h
        | markEvt => exact guarded_of_fields s _ rfl rfl rfl h
        | unknown => exact guarded_of_fields s _ rfl rfl rfl h
        | badText => exact guarded_of_fields s _ rfl rfl rfl h
  | run i =>
    rcases hget : s.tasks[i]? with _ | t
    · simp only [stepSys, hget]
      exact h
    · simp only [stepSys, hget]
      obtain ⟨kk, ph, orc, acq, sl⟩ := t
      cases kk with
      | initial =>
        cases ph with
        | p0 =>
          simp only [stepTask]
          exact guarded_run_silent s i _ _ _ _ hget h rfl rfl rfl rfl
            (by intro hd; simp [isDone] at hd)
        | awaitStt =>
          rcases horc : orc.stt with _ | t0
          · simp only [stepTask, horc, release]
            exact guarded_run_release s i _ _ _ _ hget h rfl rfl rfl (Or.inl ⟨rfl, by simp⟩)
          · simp only [stepTask, horc]
            split
            · simp only [release]
              exact guarded_run_release s i _ _ _ _ hget h rfl rfl rfl (Or.inl ⟨rfl, by simp⟩)
            · exact guarded_run_silent s i _ _ _ _ hget h rfl rfl rfl rfl
                (by intro hd; simp [isDone] at hd)
        | awaitCastUser t0 =>
          simp only [stepTask]
          exact guarded_run_silent s i _ _ _ _ hget h rfl rfl rfl rfl
            (by intro hd; simp [isDone] at hd)
        | awaitGen =>
          rcases horc : orc.gen with _ | g0
          · simp only [stepTask, horc, release]
            exact guarded_run_release s i _ _ _ _ hget h rfl rfl rfl (Or.inl ⟨rfl, by simp⟩)
          · simp only [stepTask, horc]
            exact guarded_run_silent s i _ _ _ _ hget h rfl rfl rfl rfl
              (by intro hd; simp [isDone] at hd)
        | awaitCastAI g0 =>
          simp only [stepTask]
          exact guarded_run_silent s i _ _ _ _ hget h rfl rfl rfl rfl
            (by intro hd; simp [isDone] at hd)
        | awaitTts =>
          rcases horc : orc.tts with _ | pcm
          · simp only [stepTask, horc, release]
            exact guarded_run_release s i _ _ _ _ hget h rfl rfl rfl (Or.inl ⟨rfl, by simp⟩)
          · rcases hml : ttsToMulaw pcm with _ | ml
            · simp only [stepTask, horc, hml, release]
              exact guarded_run_release s i _ _ _ _ hget h rfl rfl rfl (Or.inl ⟨rfl, by simp⟩)
            · rcases hch : chunk640 ml with _ | ⟨c0, chs⟩
              · simp only [stepTask, horc, hml, hch, sendStep]
                split
                · simp only [release]
                  exact guarded_run_release s i _ _ _ _ hget h rfl rfl rfl
                    (Or.inl ⟨rfl, by simp⟩)
                · simp only [release]
                  exact guarded_run_release s i _ _ _ _ hget h rfl rfl
                    (procTags_mark _ _ _ _) (Or.inl ⟨rfl, by simp⟩)
              · simp only [stepTask, horc, hml, hch, sendStep]
                split
                · simp only [release]
                  exact guarded_run_release s i _ _ _ _ hget h rfl rfl rfl
                    (Or.inl ⟨rfl, by simp⟩)
                · exact guarded_run_silent s i _ _ _ _ hget h
                    (procTags_media_initial _ _ _ _) rfl rfl rfl
                    (by intro hd; simp [isDone] at hd)
        | sending pending k0 =>
          rcases pending with _ | ⟨c0, chs⟩
          · simp only [stepTask, sendStep]
            split
            · simp only [release]
              exact guarded_run_release s i _ _ _ _ hget h rfl rfl rfl (Or.inl ⟨rfl, by simp⟩)
            · simp only [release]
              exact guarded_run_release s i _ _ _ _ hget h rfl rfl
                (procTags_mark _ _ _ _) (Or.inl ⟨rfl, by simp⟩)
          · simp only [stepTask, sendStep]
            split
            · simp only [release]
              exact guarded_run_release s i _ _ _ _ hget h rfl rfl rfl (Or.inl ⟨rfl, by simp⟩)
            · exact guarded_run_silent s i _ _ _ _ hget h
                (procTags_media_initial _ _ _ _) rfl rfl rfl
                (by intro hd; simp [isDone] at hd)
        | done =>
          simp only [stepTask]
          exact guarded_run_silent s i _ _ _ _ hget h rfl rfl rfl rfl (fun hd => hd)
      | process =>
        cases ph with
        | p0 =>
          rcases hb : s.ctx.is_processing with _ | _
          · rcases hbuf : s.ctx.audio_buffer with _ | ⟨x, xs⟩
            · simp only [stepTask, hb, hbuf]
              split_ifs with hcnd
              · exact guarded_run_silent s i _ _ _ _ hget h rfl rfl rfl rfl
                  (by intro hd; simp [isDone] at hd)
              · exact absurd (by simp) hcnd
            · simp only [stepTask, hb, hbuf]
              rw [if_neg (by simp)]
              exact guarded_run_acquire s i _ _ _ hget h hb rfl rfl rfl rfl
          · simp only [stepTask, hb]
            split_ifs with hcnd
            · exact guarded_run_silent s i _ _ _ _ hget h rfl rfl rfl rfl
                (by intro hd; simp [isDone] at hd)
            · exact absurd (by simp) hcnd
        | awaitStt =>
          rcases horc : orc.stt with _ | t0
          · simp only [stepTask, horc, release]
            split_ifs with hcnd
            · exact guarded_run_release s i _ _ _ _ hget h rfl rfl rfl (Or.inr ⟨rfl, rfl⟩)
            · exact absurd (by simp) hcnd
          · simp only [stepTask, horc]
            split
            · simp only [release]
              split_ifs with hcnd
              · exact guarded_run_release s i _ _ _ _ hget h rfl rfl rfl (Or.inr ⟨rfl, rfl⟩)
              · exact absurd (by simp) hcnd
            · exact guarded_run_silent s i _ _ _ _ hget h rfl rfl rfl rfl
                (by intro hd; simp [isDone] at hd)
        | awaitCastUser t0 =>
          simp only [stepTask]
          exact guarded_run_silent s i _ _ _ _ hget h rfl rfl rfl rfl
            (by intro hd; simp [isDone] at hd)
        | awaitGen =>
          rcases horc : orc.gen with _ | g0
          · simp only [stepTask, horc, release]
            split_ifs with hcnd
            · exact guarded_run_release s i _ _ _ _ hget h rfl rfl rfl (Or.inr ⟨rfl, rfl⟩)
            · exact absurd (by simp) hcnd
          · simp only [stepTask, horc]
            exact guarded_run_silent s i _ _ _ _ hget h rfl rfl rfl rfl
              (by intro hd; simp [isDone] at hd)
        | awaitCastAI g0 =>
          simp only [stepTask]
          exact guarded_run_silent s i _ _ _ _ hget h rfl rfl rfl rfl
            (by intro hd; simp [isDone] at hd)
        | awaitTts =>
          rcases horc : orc.tts with _ | pcm
          · simp only [stepTask, horc, release]
            split_ifs with hcnd
            · exact guarded_run_release s i _ _ _ _ hget h rfl rfl rfl (Or.inr ⟨rfl, rfl⟩)
            · exact absurd (by simp) hcnd
          · rcases hml : ttsToMulaw pcm with _ | ml
            · simp only [stepTask, horc, hml, release]
              split_ifs with hcnd
              · exact guarded_run_release s i _ _ _ _ hget h rfl rfl rfl (Or.inr ⟨rfl, rfl⟩)
              · exact absurd (by simp) hcnd
            · rcases hch : chunk640 ml with _ | ⟨c0, chs⟩
              · simp only [stepTask, horc, hml, hch, sendStep]
                split
                · simp only [release]
                  split_ifs with hcnd
                  · exact guarded_run_release s i _ _ _ _ hget h rfl rfl rfl (Or.inr ⟨rfl, rfl⟩)
                  · exact absurd (by simp) hcnd
                · simp only [release]
                  split_ifs with hcnd
                  · exact guarded_run_release s i _ _ _ _ hget h rfl rfl
                      (procTags_mark _ _ _ _) (Or.inr ⟨rfl, rfl⟩)
                  · exact absurd (by simp) hcnd
              · simp only [stepTask, horc, hml, hch, sendStep]
                split
                · simp only [release]
                  split_ifs with hcnd
                  · exact guarded_run_release s i _ _ _ _ hget h rfl rfl rfl (Or.inr ⟨rfl, rfl⟩)
                  · exact absurd (by simp) hcnd
                · exact guarded_run_send_process s i _ _ _ _ _ hget h rfl rfl rfl rfl rfl
        | sending pending k0 =>
          rcases pending with _ | ⟨c0, chs⟩
          · simp only [stepTask, sendStep]
            split
            · simp only [release]
              split_ifs with hcnd
              · exact guarded_run_release s i _ _ _ _ hget h rfl rfl rfl (Or.inr ⟨rfl, rfl⟩)
              · exact absurd (by simp) hcnd
            · simp only [release]
              split_ifs with hcnd
              · exact guarded_run_release s i _ _ _ _ hget h rfl rfl
                  (procTags_mark _ _ _ _) (Or.inr ⟨rfl, rfl⟩)
              · exact absurd (by simp) hcnd
          · simp only [stepTask, sendStep]
            split
            · simp only [release]
              split_ifs with hcnd
              · exact guarded_run_release s i _ _ _ _ hget h rfl rfl rfl (Or.inr ⟨rfl, rfl⟩)
              · exact absurd (by simp) hcnd
            · exact guarded_run_send_process s i _ _ _ _ _ hget h rfl rfl rfl rfl rfl
        | done =>
          simp only [stepTask]
          exact guarded_run_silent s i _ _ _ _ hget h rfl rfl rfl rfl (fun hd => hd)

/-- The state of a fresh connection: default context, no tasks, nothing
sent, the inbound frames and the oracle supply pending, loop running. -/
def startSys (evs : List InEvent) (sup : List Oracle) : Sys :=
  { ctx := {}, tasks := [], out := [], events := evs, supply := sup, loopAlive := true }

/-- A fresh connection satisfies the single-flight invariant. -/
theorem guarded_start (evs : List InEvent) (sup : List Oracle) :
    Guarded (startSys evs sup) := by
  refine ⟨rfl, ?_, ?_⟩ <;> simp [startSys, procTags, dedupAdj]

/-- The single-flight invariant is preserved by every run of the
system. -/
theorem guarded_runSys (s : Sys) (cs : List Choice) (h : Guarded s) :
    Guarded (runSys s cs) := by
  induction cs generalizing s with
  | nil => exact h
  | cons c cs ih => exact ih _ (guarded_step s c h)

/-- **C1** (corrected).  From connection start, under every inbound frame
sequence, oracle supply and cooperative scheduling, at most one
`_process_audio_and_respond` execution is past its `is_processing` guard
at any time, and the outbound audio chunks of two such executions are
never interleaved.  The original claim extends the guarantee to the
initial `_generate_and_send` turn; that part fails (see the refutation
below): the initial turn never checks or sets `is_processing`. -/
theorem single_flight_guard (evs : List InEvent) (sup : List Oracle) (cs : List Choice) :
    (runSys (startSys evs sup) cs).tasks.countP inFlight ≤ 1 ∧
    (dedupAdj (procTags (runSys (startSys evs sup) cs).out)).Nodup := by
  obtain ⟨h1, h2, -⟩ := guarded_runSys (startSys evs sup) cs (guarded_start evs sup)
  refine ⟨?_, h2⟩
  rw [h1]
  split <;> omega

/-- Oracle of the initial turn: a greeting whose synthesized audio
resamples to 641 mu-law bytes, i.e. two chunks. -/
def wOrc0 : Oracle := { gen := some "Hello there", tts := some (List.replicate 3536 0) }

/-- Oracle of the media-triggered turn: a transcription and a reply whose
audio fits in one chunk. -/
def wOrc1 : Oracle :=
  { stt := some "yes please", gen := some "Great", tts := some [100, 0, 100, 0, 100, 0] }

def wStart1 : InEvent := .start (some "MZcx") (some {})

/-- A session that receives a `start` frame and then one 16000-byte
`media` frame. -/
def wSys1 : Sys := startSys [wStart1, .media (some (List.replicate 16000 0))] [wOrc0, wOrc1]

/-- A legal cooperative schedule: the initial turn (task 0) runs up to
its first chunk send and suspends in `asyncio.sleep`; the media frame
then spawns `_process_audio_and_respond` (task 1), which runs to
completion of its own chunk send; the initial turn then sends its second
chunk. -/
def wChoices : List Choice :=
  [.deliver, .run 0, .run 0, .run 0, .run 0, .deliver,
   .run 1, .run 1, .run 1, .run 1, .run 1, .run 1, .run 0]

/-- Delivering a `media` frame that takes the accumulator to the
threshold while `is_processing` is clear schedules a processing turn. -/
theorem stepSys_deliver_media_spawn (s : Sys) (bs : List Nat) (rest : List InEvent)
    (hal : s.loopAlive = true) (hev : s.events = .media (some bs) :: rest)
    (hlen : 16000 ≤ s.ctx.audio_buffer.length + bs.length)
    (hbusy : s.ctx.is_processing = false) :
    stepSys s .deliver =
      spawnTask
        { s with events := rest, ctx := { s.ctx with audio_buffer := s.ctx.audio_buffer ++ bs } }
        TaskKind.process := by
  simp only [stepSys, hal, hev]
  rw [if_pos trivial]
  simp only [handleEvent]
  split_ifs with hcnd
  · rfl
  · exact absurd ⟨by simpa [List.length_append] using hlen, hbusy⟩ hcnd


/-- `array("h").frombytes` over an even-length run of zero bytes is a run
of zero samples. -/
theorem bytesToSamples_replicate_zero (n : Nat) :
    bytesToSamples (List.replicate (2 * n) 0) = some (List.replicate n 0) := by
  induction n with
  | zero => rfl
  | succ k ih =>
    rw [show 2 * (k + 1) = 2 * k + 1 + 1 by omega]
    simp only [List.replicate_succ, bytesToSamples, ih]
    rfl

/-- Flattening constant two-byte chunks. -/
theorem flatten_replicate_pair (n : Nat) :
    (List.replicate n ([0, 0] : List Nat)).flatten = List.replicate (2 * n) 0 := by
  induction n with
  | zero => rfl
  | succ k ih =>
    rw [List.replicate_succ, List.flatten_cons, ih, show 2 * (k + 1) = 2 * k + 1 + 1 by omega]
    rfl

/-- `array("h").tobytes` over a run of zero samples. -/
theorem samplesToBytes_replicate_zero (n : Nat) :
    samplesToBytes (List.replicate n 0) = List.replicate (2 * n) 0 := by
  rw [samplesToBytes, List.map_replicate, show i16ToBytes 0 = [0, 0] from rfl,
    flatten_replicate_pair]

/-- Resampling a run of zero samples gives a run of zero samples of the
resampled length. -/
theorem resampleSamples_replicate_zero (n f t : Nat) :
    resampleSamples (List.replicate n 0) f t = List.replicate (n * t / f) 0 := by
  simp only [resampleSamples, List.length_replicate]
  refine List.eq_replicate.mpr ⟨by rw [List.length_map, List.length_range], ?_⟩
  intro b hb
  obtain ⟨i, hi, hb⟩ := List.mem_map.mp hb
  subst hb
  have hz : ∀ j, (List.replicate n (0 : Int)).getD j 0 = 0 := by
    intro j
    rcases Nat.lt_or_ge j n with hj | hj
    · rw [List.getD_eq_getElem?_getD, List.getElem?_replicate, if_pos hj]
      rfl
    · rw [List.getD_eq_getElem?_getD, List.getElem?_replicate, if_neg (by omega)]
      rfl
  simp only [hz]
  simp [truncDiv]

/-- Mu-law encoding a run of zero PCM bytes: the zero sample encodes to
byte `0xFF`. -/
theorem pcm_to_mulaw_replicate_zero (n : Nat) :
    pcm_to_mulaw (List.replicate (2 * n) 0) = some (List.replicate n 255) := by
  rw [pcm_to_mulaw, bytesToSamples_replicate_zero]
  rw [show (some (List.replicate n (0 : Int))).map (fun l => l.map linear_to_mulaw)
      = some ((List.replicate n (0 : Int)).map linear_to_mulaw) from rfl]
  rw [List.map_replicate]
  rfl

set_option maxRecDepth 4000 in
/-- The whole TTS post-processing pipeline on 3536 zero PCM bytes:
1768 samples resample (22050 to 8000) to 641 samples, hence 641 mu-law
bytes. -/
theorem ttsToMulaw_replicate_zero :
    ttsToMulaw (List.replicate 3536 0) = some (List.replicate 641 255) := by
  rw [ttsToMulaw, resample, if_neg (by decide), if_neg (by decide),
    show (3536 : Nat) = 2 * 1768 from rfl, bytesToSamples_replicate_zero]
  show (some (samplesToBytes (resampleSamples (List.replicate 1768 0) 22050 8000))).bind
    pcm_to_mulaw = some (List.replicate 641 255)
  rw [resampleSamples_replicate_zero, show (1768 * 8000 / 22050 : Nat) = 641 by norm_num,
    samplesToBytes_replicate_zero]
  show pcm_to_mulaw (List.replicate (2 * 641) 0) = some (List.replicate 641 255)
  exact pcm_to_mulaw_replicate_zero 641

set_option maxRecDepth 8000 in
/-- 641 mu-law bytes split into a full 640-byte chunk and a 1-byte
tail. -/
theorem chunk640_replicate_641 :
    chunk640 (List.replicate 641 255) = [List.replicate 640 255, [255]] := by
  have h1 : chunk640 [255] = [[255]] := by
    rw [chunk640, show ([255] : List Nat).take 640 = [255] from rfl,
      show ([255] : List Nat).drop 640 = [] from rfl]
    rw [show (chunk640 [] : List (List Nat)) = [] from by rw [chunk640]]
  rw [show List.replicate 641 255 = 255 :: List.replicate 640 255 from rfl, chunk640,
    show (255 :: List.replicate 640 255).take 640 = List.replicate 640 255 from rfl,
    show (255 :: List.replicate 640 255).drop 640 = [255] from rfl, h1]

/-- One chunk for a one-byte payload. -/
theorem chunk640_single (m : Nat) : chunk640 [m] = [[m]] := by
  rw [chunk640, show ([m] : List Nat).take 640 = [m] from rfl,
    show ([m] : List Nat).drop 640 = [] from rfl]
  rw [show (chunk640 [] : List (List Nat)) = [] from by rw [chunk640]]

/-- Unfolding one scheduling choice. -/
theorem runSys_cons (s : Sys) (c : Choice) (cs : List Choice) :
    runSys s (c :: cs) = runSys (stepSys s c) cs := rfl

def xCtxS : Context := { stream_sid := "MZcx", provider_name := "the business", service := "appointment", user_name := "a customer", purpose := "new_appointment", time_preference := "flexible" }

/-- The session after the `start` frame: context populated, initial turn
scheduled. -/
def xS1 : Sys := { ctx := xCtxS, tasks := [{ kind := .initial, phase := .p0, orc := wOrc0 }], out := [], events := [.media (some (List.replicate 16000 0))], supply := [wOrc1], loopAlive := true }

def xS2 : Sys := { xS1 with tasks := [{ kind := .initial, phase := .awaitGen, orc := wOrc0 }] }

def xS3 : Sys := { xS1 with tasks := [{ kind := .initial, phase := .awaitCastAI "Hello there", orc := wOrc0 }] }

def xCtx4 : Context := { xCtxS with conversation_history := [("assistant", "Hello there")] }

def xT4 : Task := { kind := .initial, phase := .awaitTts, orc := wOrc0 }

/-- The session just before the initial turn's first chunk send. -/
def xS4 : Sys := { xS1 with ctx := xCtx4, tasks := [xT4] }

def xT5 : Task := { kind := .initial, phase := .sending [[255]] 1, orc := wOrc0, acquired := false, sleeps := 1 }

/-- The session after the initial turn's first chunk send. -/
def xS5 : Sys := { xS1 with ctx := xCtx4, tasks := [xT5], out := [.media .initial 0 "MZcx" (List.replicate 640 255)] }

def xCtx6 : Context := { xCtx4 with audio_buffer := List.replicate 16000 0 }

/-- The session after the media frame spawns the processing turn. -/
def xS6 : Sys := { ctx := xCtx6, tasks := [xT5, { kind := .process, phase := .p0, orc := wOrc1 }], out := [.media .initial 0 "MZcx" (List.replicate 640 255)], events := [], supply := [], loopAlive := true }

def xCtx7 : Context := { xCtx4 with is_processing := true }

def xS7 : Sys := { xS6 with ctx := xCtx7, tasks := [xT5, { kind := .process, phase := .awaitStt, orc := wOrc1, acquired := true, sleeps := 0 }] }

def xS8 : Sys := { xS6 with ctx := xCtx7, tasks := [xT5, { kind := .process, phase := .awaitCastUser "yes please", orc := wOrc1, acquired := true, sleeps := 0 }] }

def xCtx9 : Context := { xCtx7 with conversation_history := [("assistant", "Hello there"), ("user", "yes please")] }

def xS9 : Sys := { xS6 with ctx := xCtx9, tasks := [xT5, { kind := .process, phase := .awaitGen, orc := wOrc1, acquired := true, sleeps := 0 }] }

def xS10 : Sys := { xS6 with ctx := xCtx9, tasks := [xT5, { kind := .process, phase := .awaitCastAI "Great", orc := wOrc1, acquired := true, sleeps := 0 }] }

def xCtx11 : Context := { xCtx7 with conversation_history := [("assistant", "Hello there"), ("user", "yes please"), ("assistant", "Great")] }

def xTpb : Task := { kind := .process, phase := .awaitTts, orc := wOrc1, acquired := true, sleeps := 0 }

/-- The session with the processing turn about to synthesize and send. -/
def xS11 : Sys := { xS6 with ctx := xCtx11, tasks := [xT5, xTpb] }

def xTpc : Task := { kind := .process, phase := .sending [] 1, orc := wOrc1, acquired := true, sleeps := 1 }

/-- The session after the processing turn's chunk send. -/
def xS12 : Sys := { xS6 with ctx := xCtx11, tasks := [xT5, xTpc], out := [.media .initial 0 "MZcx" (List.replicate 640 255), .media .process 1 "MZcx" [242]] }

def xT13 : Task := { kind := .initial, phase := .sending [] 2, orc := wOrc0, acquired := false, sleeps := 2 }

/-- The final session state: the outbound audio carries chunks of the
initial turn (task 0), the processing turn (task 1), and the initial turn
again. -/
def xS13 : Sys := { xS6 with ctx := xCtx11, tasks := [xT13, xTpc], out := [.media .initial 0 "MZcx" (List.replicate 640 255), .media .process 1 "MZcx" [242], .media .initial 0 "MZcx" [255]] }

set_option maxRecDepth 8000 in
/-- Refutation of the original C1 as stated: the initial turn scheduled
at call start is not covered by the `is_processing` guard, so its
outbound audio chunks can interleave with a processing turn's — here the
send order by task is 0, 1, 0. -/
theorem single_flight_guard_cx :
    mediaTags (runSys wSys1 wChoices).out = [0, 1, 0] ∧
    ¬ (dedupAdj (mediaTags (runSys wSys1 wChoices).out)).Nodup := by
  have e2 : stepSys xS4 (Choice.run 0) = xS5 := by
    have hget : xS4.tasks[0]? = some xT4 := rfl
    simp only [stepSys, hget, stepTask, xT4, wOrc0, ttsToMulaw_replicate_zero,
      chunk640_replicate_641, sendStep]
    rfl
  have e3 : stepSys xS5 Choice.deliver = xS6 := by
    have hlen1 : 16000 ≤ xS5.ctx.audio_buffer.length
        + (List.replicate 16000 (0 : Nat)).length := by
      rw [show xS5.ctx.audio_buffer = [] from rfl, List.length_nil, List.length_replicate]
    rw [stepSys_deliver_media_spawn xS5 (List.replicate 16000 0) [] rfl rfl hlen1 rfl]
    rfl
  have e5 : stepSys xS11 (Choice.run 1) = xS12 := by
    have hget : xS11.tasks[1]? = some xTpb := rfl
    have httsb : ttsToMulaw [100, 0, 100, 0, 100, 0] = some [242] := by decide
    simp only [stepSys, hget, stepTask, xTpb, wOrc1, httsb, chunk640_single, sendStep]
    rfl
  have d1 : stepSys wSys1 Choice.deliver = xS1 := rfl
  have d2 : stepSys xS1 (Choice.run 0) = xS2 := rfl
  have d3 : stepSys xS2 (Choice.run 0) = xS3 := rfl
  have d4 : stepSys xS3 (Choice.run 0) = xS4 := rfl
  have d7 : stepSys xS6 (Choice.run 1) = xS7 := rfl
  have d8 : stepSys xS7 (Choice.run 1) = xS8 := rfl
  have d9 : stepSys xS8 (Choice.run 1) = xS9 := rfl
  have d10 : stepSys xS9 (Choice.run 1) = xS10 := rfl
  have d11 : stepSys xS10 (Choice.run 1) = xS11 := rfl
  have d13 : stepSys xS12 (Choice.run 0) = xS13 := rfl
  have hw : wChoices = [Choice.deliver, Choice.run 0, Choice.run 0, Choice.run 0,
    Choice.run 0, Choice.deliver, Choice.run 1, Choice.run 1, Choice.run 1, Choice.run 1,
    Choice.run 1, Choice.run 1, Choice.run 0] := rfl
  rw [hw, runSys_cons, d1, runSys_cons, d2, runSys_cons, d3, runSys_cons, d4,
    runSys_cons, e2, runSys_cons, e3, runSys_cons, d7, runSys_cons, d8, runSys_cons, d9,
    runSys_cons, d10, runSys_cons, d11, runSys_cons, e5, runSys_cons, d13]
  rw [show runSys xS13 [] = xS13 from rfl]
  decide

end MediaStream
